import Mathlib

/-!
# Verification of the Dataline tabular-data core

Shallow embedding of the data-quality / cleaning / aggregation / filter logic of
the Dataline repository (`src/services/dataService.ts` and the chart/dashboard
component), together with proofs settling the specification claims.

Modelling conventions:
* A JavaScript cell value is a `Value`: a number (modelled as `ℚ`; the float
  arithmetic appearing here is exact on the inputs treated), a string, `null`,
  or `undefined`.
* A row (`DataRow`, a plain JS object) is an association list `Row` whose order
  models JS property creation order (used by `Object.values`).  Property read
  `row[c]` is `rowGet`, property write `row[c] = v` is `rowSet`.
* `Number(v)` is `toNum`, with `none` playing NaN.  String→number parsing models
  decimal literals (optional sign, integer and fraction digits, surrounding
  whitespace, and the empty string coercing to 0); exotic forms (hex, exponents,
  `Infinity`) are outside the modelled fragment and parse as NaN.
* `String(v)` is `jsString`.  For integral numbers it matches JS exactly; the
  rendering of non-integral rationals is a placeholder never relied upon.
-/

namespace Dataline

/-- A JavaScript cell value as stored in a `DataRow`. -/
inductive Value where
  | num (q : ℚ)
  | str (s : String)
  | null
  | undefined
deriving DecidableEq, Repr

/-- A `DataRow`: a JS object, modelled as an association list in property
creation order. -/
abbrev Row := List (String × Value)

/-- Property read `row[c]`; an absent property reads as `undefined`. -/
def rowGet (r : Row) (c : String) : Value :=
  match r.find? (fun p => p.1 == c) with
  | some p => p.2
  | none => .undefined

/-- Property write `row[c] = v`: overwrite in place if the key exists, else
append a new property. -/
def rowSet (r : Row) (c : String) (v : Value) : Row :=
  if r.any (fun p => p.1 == c) then
    r.map (fun p => if p.1 == c then (c, v) else p)
  else r ++ [(c, v)]

/-- The missing-value test used throughout the source:
`val === null || val === undefined || val === ''`. -/
def isMissingVal : Value → Bool
  | .null => true
  | .undefined => true
  | .str s => s == ""
  | .num _ => false

/-- `typeof val === 'number'`. -/
def typeofNumber : Value → Bool
  | .num _ => true
  | _ => false

/-- Digits to natural number (most significant first). -/
def digitsToNat (cs : List Char) : ℕ :=
  cs.foldl (fun n c => n * 10 + (c.toNat - 48)) 0

/-- Models JavaScript `Number(string)`: trims whitespace, the empty string
coerces to `0`, and decimal literals (optional sign, integer/fraction digits)
parse to their value.  `none` models NaN. -/
def parseJsNum (s : String) : Option ℚ :=
  let t := ((s.data.dropWhile (fun c => c.isWhitespace)).reverse.dropWhile
      (fun c => c.isWhitespace)).reverse
  if t.isEmpty then some 0
  else
    let signBody : ℚ × List Char :=
      match t with
      | '+' :: cs => (1, cs)
      | '-' :: cs => (-1, cs)
      | cs => (1, cs)
    let sgn := signBody.1
    let body := signBody.2
    let intPart := body.takeWhile (fun c => c.isDigit)
    let rest := body.dropWhile (fun c => c.isDigit)
    match rest with
    | [] => if intPart.isEmpty then none else some (sgn * (digitsToNat intPart : ℚ))
    | '.' :: frac =>
      if frac.all (fun c => c.isDigit) && !(intPart.isEmpty && frac.isEmpty) then
        some (sgn * ((digitsToNat intPart : ℚ) + (digitsToNat frac : ℚ) / ((10 : ℚ) ^ frac.length)))
      else none
    | _ => none

/-- JavaScript `Number(v)`; `none` models NaN.  `Number(null) = 0`,
`Number(undefined) = NaN`. -/
def toNum : Value → Option ℚ
  | .num q => some q
  | .str s => parseJsNum s
  | .null => some 0
  | .undefined => none

/-- The `convert_to_number` coercion: `Number(v)` falling back to `0` on NaN. -/
def toNumOr0 (v : Value) : ℚ := (toNum v).getD 0

/-- Models `Number(x.toFixed(2))`: rounding to two decimal places. -/
def round2 (q : ℚ) : ℚ := (⌊q * 100 + 1 / 2⌋ : ℚ) / 100

/-- String rendering of a number; exact for integral values (the only ones the
proofs evaluate). -/
def ratToString (q : ℚ) : String :=
  if q.den = 1 then toString q.num else toString q

/-- JavaScript `String(v)`. -/
def jsString : Value → String
  | .num q => ratToString q
  | .str s => s
  | .null => "null"
  | .undefined => "undefined"

/-- Element rendering used by `Array.prototype.join` (`null`/`undefined`
render as the empty string there). -/
def joinElem : Value → String
  | .null => ""
  | .undefined => ""
  | v => jsString v

/-- The row signature `Object.values(row).join('|')` used by duplicate
detection and `remove_duplicates`. -/
def sigOfRow (r : Row) : String :=
  String.intercalate "|" (r.map (fun p => joinElem p.2))

/-! ## Cleaning operations (`dataService.ts`) -/

/-- The `CleaningOperation['type']` union. -/
inductive OpType where
  | remove_duplicates
  | remove_empty_rows
  | fill_missing_zero
  | fill_missing_mean
  | convert_to_number
deriving DecidableEq, Repr

/-- `CleaningOperation`. -/
structure CleaningOperation where
  type : OpType
  column : Option String
  description : String
  enabled : Bool
deriving DecidableEq, Repr

/-- `operations.filter(op => op.enabled)`. -/
def activeOps (ops : List CleaningOperation) : List CleaningOperation :=
  ops.filter (fun op => op.enabled)

/-- JS truthiness of `op.column` (absent or the empty string is falsy). -/
def truthyColumn (op : CleaningOperation) : Bool :=
  match op.column with
  | some s => !(s == "")
  | none => false

def colOf (op : CleaningOperation) : String := op.column.getD ""

/-- The seen-set loop inside the `remove_duplicates` filter. -/
def dedupeGo (seen : List String) : List Row → List Row
  | [] => []
  | r :: rs =>
    if seen.contains (sigOfRow r) then dedupeGo seen rs
    else r :: dedupeGo (sigOfRow r :: seen) rs

/-- Phase 1 of `cleanDataset`: keep the first row of each signature. -/
def dedupe (rows : List Row) : List Row := dedupeGo [] rows

/-- `columns.every(col => row[col] !== null && row[col] !== undefined && row[col] !== '')`. -/
def rowComplete (columns : List String) (r : Row) : Bool :=
  columns.all (fun c => !isMissingVal (rowGet r c))

/-- Phase 2 of `cleanDataset`: drop rows with any missing cell. -/
def dropEmpty (columns : List String) (rows : List Row) : List Row :=
  rows.filter (rowComplete columns)

/-- One step of the phase-3 `activeOps.forEach` body: fill-missing-zero and
convert-to-number on the operation's column (other operation types and falsy
columns leave the row unchanged). -/
def applyOp (op : CleaningOperation) (r : Row) : Row :=
  if truthyColumn op then
    let c := colOf op
    let v := rowGet r c
    match op.type with
    | .fill_missing_zero => if isMissingVal v then rowSet r c (.num 0) else r
    | .convert_to_number => rowSet r c (.num (toNumOr0 v))
    | _ => r
  else r

/-- Phase 3 of `cleanDataset`, guarded by `activeOps.some(op => op.column)`. -/
def phase3 (aops : List CleaningOperation) (rows : List Row) : List Row :=
  if aops.any truthyColumn then
    rows.map (fun r => aops.foldl (fun nr op => applyOp op nr) r)
  else rows

/-- `op.type === 'fill_missing_mean' && op.column`. -/
def isMeanOp (op : CleaningOperation) : Bool :=
  op.type == .fill_missing_mean && truthyColumn op

/-- `rows.map(r => r[col]).filter(v => typeof v === 'number')`. -/
def numericValues (rows : List Row) (c : String) : List ℚ :=
  rows.filterMap (fun r =>
    match rowGet r c with
    | .num q => some q
    | _ => none)

/-- `means[col]` of phase 4: arithmetic mean of the numeric values, `0` when
there are none. -/
def meanOf (rows : List Row) (c : String) : ℚ :=
  let vs := numericValues rows c
  if vs.length > 0 then vs.sum / (vs.length : ℚ) else 0

/-- One step of the phase-4 `meanOps.forEach` body; `rows0` is the row set the
means were computed over. -/
def applyMean (rows0 : List Row) (op : CleaningOperation) (r : Row) : Row :=
  let c := colOf op
  if isMissingVal (rowGet r c) then rowSet r c (.num (round2 (meanOf rows0 c))) else r

/-- Phase 4 of `cleanDataset`: mean filling. -/
def phase4 (aops : List CleaningOperation) (rows : List Row) : List Row :=
  let mops := aops.filter isMeanOp
  if mops.isEmpty then rows
  else rows.map (fun r => mops.foldl (fun nr op => applyMean rows op nr) r)

/-- `cleanDataset(data, columns, operations)` from `dataService.ts`. -/
def cleanDataset (data : List Row) (columns : List String)
    (operations : List CleaningOperation) : List Row :=
  let aops := activeOps operations
  let d1 := if aops.any (fun op => op.type == .remove_duplicates) then dedupe data else data
  let d2 := if aops.any (fun op => op.type == .remove_empty_rows) then dropEmpty columns d1 else d1
  let d3 := phase3 aops d2
  phase4 aops d3

/-! ## Quality assessment (`assessDataQuality`) -/

/-- The `'string' | 'number'` column-type union. -/
inductive ColType where
  | number
  | string
deriving DecidableEq, Repr

/-- `DataQualityReport`. -/
structure DataQualityReport where
  totalRows : ℕ
  duplicateRows : ℕ
  missingValues : List (String × ℕ)
  columnTypes : List (String × ColType)
deriving DecidableEq, Repr

/-- Predicate counted into `numCount` by the type-inference loop:
a number, or a non-missing value whose `Number(...)` is not NaN. -/
def typeNumPred (v : Value) : Bool :=
  typeofNumber v || (!isMissingVal v && (toNum v).isSome)

/-- Predicate counted into `strCount`: non-number, non-missing, NaN coercion. -/
def typeStrPred (v : Value) : Bool :=
  !typeofNumber v && !isMissingVal v && (toNum v).isNone

/-- `numCount` over the first `min(rowCount, 500)` rows. -/
def colNumCount (data : List Row) (c : String) : ℕ :=
  (List.range (min data.length 500)).countP (fun i => typeNumPred (rowGet (data.getD i []) c))

/-- `strCount` over the first `min(rowCount, 500)` rows. -/
def colStrCount (data : List Row) (c : String) : ℕ :=
  (List.range (min data.length 500)).countP (fun i => typeStrPred (rowGet (data.getD i []) c))

/-- The missing-value loop `for (i = 0; i < data.length; i += step)`: it visits
exactly the indices `i < data.length` with `i % step = 0`. -/
def colMissingRaw (data : List Row) (c : String) (step : ℕ) : ℕ :=
  (List.range data.length).countP
    (fun i => i % step == 0 && isMissingVal (rowGet (data.getD i []) c))

/-- The duplicate-detection seen-set loop. -/
def dupLoop : List Row → List String → ℕ
  | [], _ => 0
  | r :: rs, seen =>
    if seen.contains (sigOfRow r) then dupLoop rs seen + 1
    else dupLoop rs (sigOfRow r :: seen)

/-- The sampling stride of the missing-value loop: `1`, or
`floor(rowCount / 10000)` for large datasets. -/
def assessStep (data : List Row) : ℕ :=
  if data.length > 50000 then data.length / 10000 else 1

/-- One column's entry of `missingValues`: the sampled count, extrapolated by
`Math.round(count * step)` (the identity on the integral product) when
sampling was in effect. -/
def assessMissingValue (data : List Row) (c : String) : ℕ :=
  let step := assessStep data
  let raw := colMissingRaw data c step
  if data.length > 50000 ∧ step > 1 then raw * step else raw

/-- One column's entry of `columnTypes`: `numCount >= strCount` defaults to
number. -/
def assessColType (data : List Row) (c : String) : ColType :=
  if colStrCount data c ≤ colNumCount data c then ColType.number else ColType.string

/-- The `duplicateRows` field: the seen-set count over the first
`min(rowCount, 2000)` rows, extrapolated by
`Math.floor(dup / limit * rows)` — the exact rational floor, i.e. natural
division — when the sample is proper and the count positive. -/
def assessDuplicateRows (data : List Row) : ℕ :=
  let lim := min data.length 2000
  let d := dupLoop (data.take lim) []
  if lim < data.length ∧ d > 0 then d * data.length / lim else d

/-- `assessDataQuality(data, columns)` from `dataService.ts`. -/
def assessDataQuality (data : List Row) (columns : List String) : DataQualityReport :=
  { totalRows := data.length
    duplicateRows := assessDuplicateRows data
    missingValues := columns.map (fun c => (c, assessMissingValue data c))
    columnTypes := columns.map (fun c => (c, assessColType data c)) }

/-! ## Chart aggregation (`ChartComponent.chartData`) -/

/-- The `ChartType` union `'bar' | 'line' | 'pie' | 'area' | 'scatter'`. -/
inductive ChartType where
  | bar
  | line
  | pie
  | area
  | scatter
deriving DecidableEq, Repr

/-- The `AggregationType` union. -/
inductive AggKind where
  | sum
  | avg
  | count
  | min
  | max
  | none
deriving DecidableEq, Repr

/-- `config.yKey : string | string[]`. -/
inductive YKeyField where
  | one (s : String)
  | many (l : List String)
deriving DecidableEq, Repr

/-- The fields of `ChartConfig` the aggregation logic reads (style props are
omitted).  `aggregation : Option AggKind` models the optional field, with
`Option.none` for absent/undefined. -/
structure ChartConfig where
  id : String
  title : String
  type : ChartType
  xKey : String
  yKey : YKeyField
  aggregation : Option AggKind
deriving DecidableEq, Repr

/-- `const yKey = Array.isArray(config.yKey) ? config.yKey[0] : config.yKey`
(an empty array yields `undefined`, and `row[undefined]` reads the property
named `"undefined"`). -/
def effYKey (cfg : ChartConfig) : String :=
  match cfg.yKey with
  | .one s => s
  | .many [] => "undefined"
  | .many (s :: _) => s

/-- `!config.aggregation || config.aggregation === 'none'`. -/
def isNoneAgg (cfg : ChartConfig) : Bool :=
  match cfg.aggregation with
  | Option.none => true
  | some .none => true
  | some _ => false

/-- The sign of `a - b` on numbers. -/
def ratCmp (p q : ℚ) : Ordering :=
  if p < q then .lt else if q < p then .gt else .eq

/-- Code-point comparison of two character lists. -/
def strCmpChars : List Char → List Char → Ordering
  | [], [] => .eq
  | [], _ :: _ => .lt
  | _ :: _, [] => .gt
  | a :: as, b :: bs =>
    if a.toNat < b.toNat then .lt
    else if b.toNat < a.toNat then .gt
    else strCmpChars as bs

/-- Models `String.prototype.localeCompare` as code-point comparison. -/
def strCmp (s t : String) : Ordering :=
  strCmpChars s.data t.data

def intCmp (m n : ℤ) : Ordering :=
  if m < n then .lt else if n < m then .gt else .eq

/-- The comparator of the aggregation-`none` Line/Area sort:
numeric difference when both values are (typeof) numbers, otherwise
`String(valA).localeCompare(String(valB))`. -/
def cmpNone (x : String) (a b : Row) : Ordering :=
  match rowGet a x, rowGet b x with
  | .num p, .num q => ratCmp p q
  | va, vb => strCmp (jsString va) (jsString vb)

/-- Models `Date.parse(String(v))` on ISO `YYYY-MM-DD` strings (a linearised
chronological key); other date formats are outside the modelled fragment and
yield NaN (`none`). -/
def parseJsDate (s : String) : Option ℤ :=
  match s.splitOn "-" with
  | [y, m, d] =>
    if y.length = 4 && m.length = 2 && d.length = 2
        && y.data.all (fun ch => ch.isDigit) && m.data.all (fun ch => ch.isDigit)
        && d.data.all (fun ch => ch.isDigit) then
      some ((digitsToNat y.data : ℤ) * 10000 + (digitsToNat m.data : ℤ) * 100 + (digitsToNat d.data : ℤ))
    else Option.none
  | _ => Option.none

/-- The 3-tier comparator applied to the grouped output: numeric when both
values coerce without NaN and neither is the empty string, else date compare
when both parse as dates, else string compare. -/
def cmpAgg (x : String) (a b : Row) : Ordering :=
  let va := rowGet a x
  let vb := rowGet b x
  if (toNum va).isSome && (toNum vb).isSome && !(va == Value.str "") && !(vb == Value.str "") then
    ratCmp ((toNum va).getD 0) ((toNum vb).getD 0)
  else
    match parseJsDate (jsString va), parseJsDate (jsString vb) with
    | some da, some db => intCmp da db
    | _, _ => strCmp (jsString va) (jsString vb)

/-- Stable insertion used to model `Array.prototype.sort(comparator)`:
an element is placed before the first element it does not compare greater
than, preserving the original order of ties. -/
def jsInsert (cmp : α → α → Ordering) (a : α) : List α → List α
  | [] => [a]
  | b :: bs => if cmp a b == Ordering.gt then b :: jsInsert cmp a bs else a :: b :: bs

/-- Models the stable `Array.prototype.sort(comparator)`; any stable sorting
algorithm realises the ECMA-262 contract for consistent comparators. -/
def jsSortBy (cmp : α → α → Ordering) : List α → List α
  | [] => []
  | a :: as => jsInsert cmp a (jsSortBy cmp as)

/-- The per-group accumulator `{count, _sum, _min, _max}`; `Option.none` for
`_min`/`_max` plays `Infinity`/`-Infinity`. -/
structure GroupAcc where
  xVal : Value
  count : ℕ
  sum : ℚ
  min : Option ℚ
  max : Option ℚ
deriving DecidableEq, Repr

def initAcc (xv : Value) : GroupAcc :=
  { xVal := xv, count := 0, sum := 0, min := Option.none, max := Option.none }

/-- The statistics update for one numeric y observation. -/
def bump (a : GroupAcc) (y : ℚ) : GroupAcc :=
  { xVal := a.xVal
    count := a.count + 1
    sum := a.sum + y
    min := some (match a.min with | some m => Min.min m y | Option.none => y)
    max := some (match a.max with | some m => Max.max m y | Option.none => y) }

/-- One step of the grouping `data.forEach`: create the group on first sight of
`String(xVal)`, then fold in the y value when `Number(row[yKey])` is not NaN.
The accumulator object `{[xKey]: xVal, count: 0, _sum: 0, _min: Infinity,
_max: -Infinity}` is modelled as a record with a separate `xVal` field.  This
is faithful only when `xKey` is none of the literal field names `count`,
`_sum`, `_min`, `_max`: at those keys the object-literal collision clobbers
the stored x value with the statistic (initially `0`, `0`, `Infinity`,
`-Infinity` — the last two outside this embedding's value domain), and the
later field reads and writes all hit the single collided property.  The C2
theorem therefore excludes those four `xKey` values by hypothesis. -/
def groupStep (x y : String) (gs : List (String × GroupAcc)) (r : Row) : List (String × GroupAcc) :=
  let xv := rowGet r x
  let k := jsString xv
  let gs1 := if gs.any (fun p => p.1 == k) then gs else gs ++ [(k, initAcc xv)]
  match toNum (rowGet r y) with
  | some yv => gs1.map (fun p => if p.1 == k then (k, bump p.2 yv) else p)
  | Option.none => gs1

/-- The `groups` record after the grouping loop, in insertion order. -/
def buildGroups (x y : String) (data : List Row) : List (String × GroupAcc) :=
  data.foldl (groupStep x y) []

/-- The `switch (config.aggregation)` finalisation of one accumulator. -/
def aggValue (agg : AggKind) (a : GroupAcc) : ℚ :=
  match agg with
  | .sum => a.sum
  | .avg => if a.count > 0 then a.sum / (a.count : ℚ) else 0
  | .count => (a.count : ℚ)
  | .min => a.min.getD 0
  | .max => a.max.getD 0
  | .none => 0

/-- `{[xKey]: g[xKey], [yKey]: Number(val.toFixed(2))}` (assuming
`xKey ≠ yKey`; JS merges colliding literal keys).  Reading `g[xKey]` as the
stored `xVal` is faithful only when `xKey` is none of `count`, `_sum`, `_min`,
`_max`: at those keys the accumulator's collided property holds the statistic
(possibly the non-finite sentinel `±Infinity`) rather than the x value, so the
C2 theorem excludes them by hypothesis. -/
def finalizeGroup (x ykey : String) (agg : AggKind) (p : String × GroupAcc) : Row :=
  [(x, p.2.xVal), (ykey, Value.num (round2 (aggValue agg p.2)))]

/-- `ChartComponent.chartData` from the dashboard component. -/
def chartData (cfg : ChartConfig) (data : List Row) : List Row :=
  if cfg.type == .scatter then data
  else if isNoneAgg cfg then
    if cfg.type == .line || cfg.type == .area then jsSortBy (cmpNone cfg.xKey) data
    else data
  else
    let agg := cfg.aggregation.getD .none
    jsSortBy (cmpAgg cfg.xKey)
      ((buildGroups cfg.xKey (effYKey cfg) data).map (finalizeGroup cfg.xKey (effYKey cfg) agg))

/-! ## Slicer filtering (`DashboardView.filteredData`) -/

/-- `DashboardView.filteredData`: with no active filters the dataset passes
through; otherwise a row passes iff for every filtered column the stringified
cell is in the column's allowed set. -/
def filteredData (data : List Row) (activeFilters : List (String × List String)) : List Row :=
  if activeFilters.isEmpty then data
  else data.filter (fun r => activeFilters.all (fun p => p.2.contains (jsString (rowGet r p.1))))

/-! ## Specification-side definitions

These definitions transcribe the *claims'* wording (not the source); they are
used only to state refinement comparisons and counterexamples against the
source-derived definitions above. -/

/-- The rows the filter claim admits: the stringified value of every filtered
column is a member of that column's allowed set. -/
def passesFilters (activeFilters : List (String × List String)) (r : Row) : Prop :=
  ∀ p ∈ activeFilters, jsString (rowGet r p.1) ∈ p.2

/-- "Numeric yKey value" in the sense of claim C2's wording: an actual number
or a non-empty numeric string — explicitly excluding missing values such as
`null` or the empty string. -/
def specNumericY (v : Value) : Bool :=
  match v with
  | .num _ => true
  | .str s => !(s == "") && (parseJsNum s).isSome
  | _ => false

/-- The 3-tier comparator claim C5 asserts for the aggregation-`none`
Line/Area sort: numeric compare when both values parse as numbers, else date
compare when both parse as dates, else string compare. -/
def specCmp3Tier (x : String) (a b : Row) : Ordering :=
  let va := rowGet a x
  let vb := rowGet b x
  match toNum va, toNum vb with
  | some p, some q => ratCmp p q
  | _, _ =>
    match parseJsDate (jsString va), parseJsDate (jsString vb) with
    | some da, some db => intCmp da db
    | _, _ => strCmp (jsString va) (jsString vb)

/-- The rows of `data` falling in the x-group with key `k`. -/
def groupOf (data : List Row) (x k : String) : List Row :=
  data.filter (fun r => jsString (rowGet r x) == k)

/-- The y values of a row list that coerce to numbers without NaN. -/
def numericYs (rows : List Row) (y : String) : List ℚ :=
  rows.filterMap (fun r => toNum (rowGet r y))

/-- The declarative value of each grouped aggregate over the numeric y
observations of a group. -/
def aggSpec (agg : AggKind) (ys : List ℚ) : ℚ :=
  match agg with
  | .sum => ys.sum
  | .count => (ys.length : ℚ)
  | .min => (ys.min?).getD 0
  | .max => (ys.max?).getD 0
  | .avg => if ys.length > 0 then ys.sum / (ys.length : ℚ) else 0
  | .none => 0

/-- Spec-side duplicate count: the number of scanned rows (indices below
`lim`) whose signature equals the signature of some earlier scanned row. -/
def specDupCount (data : List Row) (lim : ℕ) : ℕ :=
  (List.range lim).countP (fun i =>
    (List.range i).any (fun j => sigOfRow (data.getD j []) == sigOfRow (data.getD i [])))

/-- The running minimum of a list of numbers, in the accumulator shape of the
grouping loop (`Option.none` plays the initial `Infinity`). -/
def minFold (ys : List ℚ) : Option ℚ :=
  ys.foldl (fun o v => some (match o with | some m => Min.min m v | Option.none => v)) Option.none

/-- The running maximum, dually. -/
def maxFold (ys : List ℚ) : Option ℚ :=
  ys.foldl (fun o v => some (match o with | some m => Max.max m v | Option.none => v)) Option.none

/-- The declarative accumulator of the x-group with key `k`: its first row's
xVal together with count/sum/min/max of the group's numeric y observations
(`none` when the group is empty). -/
def accSpec? (x y : String) (rows : List Row) (k : String) : Option GroupAcc :=
  match groupOf rows x k with
  | [] => Option.none
  | r0 :: _ =>
    some
      { xVal := rowGet r0 x
        count := (numericYs (groupOf rows x k) y).length
        sum := (numericYs (groupOf rows x k) y).sum
        min := minFold (numericYs (groupOf rows x k) y)
        max := maxFold (numericYs (groupOf rows x k) y) }

/-- Extensional equality of rows as column→value mappings (the spec's `Row` is
an order-irrelevant mapping, so JS property creation order is quotiented
away). -/
def RowEquiv (r s : Row) : Prop :=
  ∀ c, rowGet r c = rowGet s c

/-- Pointwise `RowEquiv` on row lists. -/
def RowsEquiv (l m : List Row) : Prop :=
  List.Forall₂ RowEquiv l m

/-- The `Dataset` invariant that a row is a genuine mapping: its property
names are pairwise distinct. -/
def keysNodup (r : Row) : Prop :=
  (r.map Prod.fst).Nodup

/-- A row is a fixed point of the phase-3 effect of an operation: for an
enabled zero-fill the target column is non-missing, for a conversion the
target column holds an actual number; all other operations never modify a
row in phase 3. -/
def opFixed (op : CleaningOperation) (r : Row) : Prop :=
  truthyColumn op = true →
    match op.type with
    | .fill_missing_zero => isMissingVal (rowGet r (colOf op)) = false
    | .convert_to_number => typeofNumber (rowGet r (colOf op)) = true
    | _ => True

/-- A row is a fixed point of the phase-4 effect of a mean-fill operation:
the target column is non-missing. -/
def meanFixed (op : CleaningOperation) (r : Row) : Prop :=
  isMissingVal (rowGet r (colOf op)) = false

/-- Each per-column cleaning step changes a row only by overwriting single
cells with numbers: at every column the new value is the old one or a number. -/
def StepOK (r r' : Row) : Prop :=
  ∀ c, rowGet r' c = rowGet r c ∨ ∃ q, rowGet r' c = Value.num q

/-- Phase 1 of `cleanDataset` including its enabling test. -/
def dedupeIf (aops : List CleaningOperation) (data : List Row) : List Row :=
  if aops.any (fun op => op.type == .remove_duplicates) then dedupe data else data

/-- Phase 2 of `cleanDataset` including its enabling test. -/
def dropEmptyIf (aops : List CleaningOperation) (cols : List String)
    (data : List Row) : List Row :=
  if aops.any (fun op => op.type == .remove_empty_rows) then dropEmpty cols data else data

/-- The cell-level effect of a phase-3 operation on its own column. -/
def opEffect (op : CleaningOperation) (v : Value) : Value :=
  match op.type with
  | .fill_missing_zero => if isMissingVal v then .num 0 else v
  | .convert_to_number => .num (toNumOr0 v)
  | _ => v

/-! ## Basic row lemmas -/

lemma rowGet_eq_undef_of_absent {r : Row} {c : String} (h : ∀ p ∈ r, p.1 ≠ c) :
    rowGet r c = .undefined := by
  unfold rowGet
  rw [List.find?_eq_none.mpr]
  intro p hp
  simpa using h p hp

lemma rowSet_of_absent {r : Row} {c : String} (v : Value) (h : ∀ p ∈ r, p.1 ≠ c) :
    rowSet r c v = r ++ [(c, v)] := by
  unfold rowSet
  rw [if_neg]
  simp only [List.any_eq_true, beq_iff_eq, not_exists, not_and]
  exact fun p hp => h p hp

lemma find?_map_rowSet_of_any {r : Row} {c : String} {v : Value}
    (h : r.any (fun p => p.1 == c) = true) :
    List.find? (fun p => p.1 == c) (r.map (fun p => if p.1 == c then (c, v) else p))
      = some (c, v) := by
  induction r with
  | nil => simp at h
  | cons p r ih =>
    by_cases hp : p.1 = c
    · simp [List.find?_cons, hp]
    · have h' : r.any (fun q => q.1 == c) = true := by
        simp only [List.any_cons] at h
        rcases Bool.or_eq_true_iff.mp h with h1 | h1
        · exact absurd (by simpa using h1) hp
        · exact h1
      simpa [List.find?_cons, hp] using ih h'

lemma rowGet_rowSet_self (r : Row) (c : String) (v : Value) :
    rowGet (rowSet r c v) c = v := by
  unfold rowSet
  by_cases h : r.any (fun p => p.1 == c) = true
  · rw [if_pos h]
    unfold rowGet
    rw [find?_map_rowSet_of_any h]
  · rw [if_neg h]
    unfold rowGet
    rw [List.find?_append, List.find?_eq_none.mpr, Option.none_or]
    · simp [List.find?_cons]
    · intro p hp
      simp only [List.any_eq_true, not_exists, not_and] at h
      exact fun hc => h p hp hc

lemma find?_map_rowSet_ne {c c' : String} {v : Value} (h : c' ≠ c) (r : Row) :
    List.find? (fun p => p.1 == c') (r.map (fun p => if p.1 == c then (c, v) else p))
      = List.find? (fun p => p.1 == c') r := by
  induction r with
  | nil => rfl
  | cons p r ih =>
    rw [List.map_cons]
    by_cases hp : p.1 = c
    · rw [List.find?_cons_of_neg, List.find?_cons_of_neg]
      · exact ih
      · simp [hp, Ne.symm h]
      · simp [hp, Ne.symm h]
    · by_cases hp' : p.1 = c'
      · rw [List.find?_cons_of_pos, List.find?_cons_of_pos]
        · simp [hp]
        · simp [hp']
        · rw [if_neg]
          · simpa using hp'
          · simpa using hp
      · rw [List.find?_cons_of_neg, List.find?_cons_of_neg]
        · exact ih
        · simp [hp']
        · simp [hp, hp']

lemma rowGet_rowSet_ne (r : Row) {c c' : String} (v : Value) (h : c' ≠ c) :
    rowGet (rowSet r c v) c' = rowGet r c' := by
  unfold rowSet
  by_cases hany : r.any (fun p => p.1 == c) = true
  · rw [if_pos hany]
    unfold rowGet
    rw [find?_map_rowSet_ne h]
  · rw [if_neg hany]
    unfold rowGet
    rw [List.find?_append]
    have hnil : List.find? (fun p => p.1 == c') [(c, v)] = Option.none := by
      rw [List.find?_cons_of_neg]
      · rfl
      · simp [Ne.symm h]
    rw [hnil, Option.or_none]

/-- A property write preserves values at every column: at the written column
the new value is a number, elsewhere the value is unchanged. -/
lemma rowGet_rowSet (r : Row) (c c' : String) (v : Value) :
    rowGet (rowSet r c v) c' = if c' = c then v else rowGet r c' := by
  by_cases h : c' = c
  · subst h; simp [rowGet_rowSet_self]
  · simp [h, rowGet_rowSet_ne r v h]

lemma round2_zero : round2 0 = 0 := by
  unfold round2
  norm_num

lemma round2_natCast (n : ℕ) : round2 (n : ℚ) = (n : ℚ) := by
  unfold round2
  have h : ((n : ℚ) * 100 + 1 / 2) = ((100 * n : ℤ) : ℚ) + 1 / 2 := by
    push_cast
    ring
  rw [h, Int.floor_int_add]
  norm_num

/-! ## Claim C10: signature collisions in duplicate handling

Row signatures are the row's values joined with `'|'`, so two rows with
different cells can share a signature; `remove_duplicates` then keeps only the
first and `assessDataQuality` counts the second as a duplicate. -/

/-- **C10.**  The rows `{A:"a|b", B:"c"}` and `{A:"a", B:"b|c"}` differ but
share the signature `"a|b|c"`; `remove_duplicates` keeps only the first, and
`assessDataQuality` reports one duplicate row. -/
theorem c10_signature_collision :
    ([("A", Value.str "a|b"), ("B", Value.str "c")] : Row)
        ≠ [("A", Value.str "a"), ("B", Value.str "b|c")]
      ∧ sigOfRow [("A", Value.str "a|b"), ("B", Value.str "c")]
        = sigOfRow [("A", Value.str "a"), ("B", Value.str "b|c")]
      ∧ cleanDataset [[("A", Value.str "a|b"), ("B", Value.str "c")],
            [("A", Value.str "a"), ("B", Value.str "b|c")]] ["A", "B"]
            [⟨.remove_duplicates, Option.none, "Remove duplicate rows", true⟩]
        = [[("A", Value.str "a|b"), ("B", Value.str "c")]]
      ∧ (assessDataQuality [[("A", Value.str "a|b"), ("B", Value.str "c")],
            [("A", Value.str "a"), ("B", Value.str "b|c")]] ["A", "B"]).duplicateRows = 1 :=
  ⟨by decide, by decide, by decide, by decide⟩

/-! ## Claim C4: operations on a column absent from the schema

The claim says such operations are no-ops.  In fact the phase-3/4 writes
`newRow[op.column] = …` *create* the missing property: the returned rows gain
the named column with value `0`. -/

/-- **C4, counterexample.**  An enabled `fill_missing_zero` on the absent
column `"Z"` does not leave the rows unchanged: it adds `Z: 0` to the row
(compare with running no operations at all). -/
theorem c4_counterexample :
    cleanDataset [[("A", Value.num 1)]] ["A"]
          [⟨.fill_missing_zero, some "Z", "Fill missing Z with 0", true⟩]
        ≠ cleanDataset [[("A", Value.num 1)]] ["A"] []
      ∧ cleanDataset [[("A", Value.num 1)]] ["A"]
          [⟨.fill_missing_zero, some "Z", "Fill missing Z with 0", true⟩]
        = [[("A", Value.num 1), ("Z", Value.num 0)]]
      ∧ rowGet ((cleanDataset [[("A", Value.num 1)]] ["A"]
          [⟨.fill_missing_zero, some "Z", "Fill missing Z with 0", true⟩]).headD []) "Z"
        = Value.num 0
      ∧ rowGet ((cleanDataset [[("A", Value.num 1)]] ["A"] []).headD []) "Z" = Value.undefined :=
  ⟨by decide, by decide, by decide, by decide⟩

/-- **C4, amended.**  An enabled column-targeted operation
(`fill_missing_zero`, `convert_to_number` or `fill_missing_mean`) whose
(non-empty) column name is absent from every row never raises, but it is not a
no-op: every returned row is the input row with the named column appended with
value `0` (zero-fill fills the `undefined` read, conversion coerces NaN to
`0`, and the mean of a column with no numeric values is `0`). -/
theorem c4_absent_column_adds_zero
    (D : List Row) (cols : List String) (op : CleaningOperation) (c : String)
    (htype : op.type = .fill_missing_zero ∨ op.type = .convert_to_number ∨
      op.type = .fill_missing_mean)
    (hcol : op.column = some c) (hc : c ≠ "") (hen : op.enabled = true)
    (habs : ∀ r ∈ D, ∀ p ∈ r, p.1 ≠ c) :
    cleanDataset D cols [op] = D.map (fun r => r ++ [(c, Value.num 0)]) := by
  have haops : activeOps [op] = [op] := by simp [activeOps, hen]
  have htc : truthyColumn op = true := by simp [truthyColumn, hcol, hc]
  have hco : colOf op = c := by simp [colOf, hcol]
  have hg1 : ([op].any (fun o => o.type == OpType.remove_duplicates)) = false := by
    rcases htype with h | h | h <;> simp [h]
  have hg2 : ([op].any (fun o => o.type == OpType.remove_empty_rows)) = false := by
    rcases htype with h | h | h <;> simp [h]
  have hg3 : ([op].any truthyColumn) = true := by simp [htc]
  have hclean : cleanDataset D cols [op] = phase4 [op] (phase3 [op] D) := by
    simp [cleanDataset, haops, hg1, hg2]
  rcases htype with h | h | h
  · -- fill_missing_zero
    have happ : ∀ r ∈ D, applyOp op r = r ++ [(c, Value.num 0)] := by
      intro r hr
      have hget : rowGet r c = .undefined := rowGet_eq_undef_of_absent (habs r hr)
      simp [applyOp, htc, hco, h, hget, isMissingVal, rowSet_of_absent _ (habs r hr)]
    have hph3 : phase3 [op] D = D.map (fun r => r ++ [(c, Value.num 0)]) := by
      unfold phase3
      rw [hg3]
      simp only [if_true]
      apply List.map_congr_left
      intro r hr
      simp [happ r hr]
    have hph4 : phase4 [op] (D.map (fun r => r ++ [(c, Value.num 0)]))
        = D.map (fun r => r ++ [(c, Value.num 0)]) := by
      unfold phase4
      have hm : [op].filter isMeanOp = [] := by simp [isMeanOp, h]
      rw [hm]
      simp
    rw [hclean, hph3, hph4]
  · -- convert_to_number
    have happ : ∀ r ∈ D, applyOp op r = r ++ [(c, Value.num 0)] := by
      intro r hr
      have hget : rowGet r c = .undefined := rowGet_eq_undef_of_absent (habs r hr)
      simp [applyOp, htc, hco, h, hget, toNumOr0, toNum, rowSet_of_absent _ (habs r hr)]
    have hph3 : phase3 [op] D = D.map (fun r => r ++ [(c, Value.num 0)]) := by
      unfold phase3
      rw [hg3]
      simp only [if_true]
      apply List.map_congr_left
      intro r hr
      simp [happ r hr]
    have hph4 : phase4 [op] (D.map (fun r => r ++ [(c, Value.num 0)]))
        = D.map (fun r => r ++ [(c, Value.num 0)]) := by
      unfold phase4
      have hm : [op].filter isMeanOp = [] := by simp [isMeanOp, h]
      rw [hm]
      simp
    rw [hclean, hph3, hph4]
  · -- fill_missing_mean
    have hph3 : phase3 [op] D = D := by
      unfold phase3
      rw [hg3]
      simp only [if_true]
      have : ∀ r ∈ D, List.foldl (fun nr o => applyOp o nr) r [op] = r := by
        intro r hr
        simp [applyOp, htc, h]
      rw [List.map_congr_left this, List.map_id']
    have hmean : meanOf D c = 0 := by
      unfold meanOf numericValues
      rw [List.filterMap_eq_nil_iff.mpr]
      · simp
      · intro r hr
        rw [rowGet_eq_undef_of_absent (habs r hr)]
    have hph4 : phase4 [op] D = D.map (fun r => r ++ [(c, Value.num 0)]) := by
      unfold phase4
      have hm : [op].filter isMeanOp = [op] := by simp [isMeanOp, h, htc]
      rw [hm]
      simp only [List.isEmpty_cons, if_false, Bool.false_eq_true]
      apply List.map_congr_left
      intro r hr
      have hget : rowGet r c = .undefined := rowGet_eq_undef_of_absent (habs r hr)
      simp [applyMean, hco, hget, isMissingVal, hmean, round2_zero,
        rowSet_of_absent _ (habs r hr)]
    rw [hclean, hph3, hph4]

/-- **C4, witness.** -/
theorem c4_absent_column_adds_zero_witness :
    cleanDataset [[("A", Value.num 1)]] ["A"]
        [⟨.convert_to_number, some "Z", "Convert Z to number", true⟩]
      = [[("A", Value.num 1), ("Z", Value.num 0)]] := by
  have h := c4_absent_column_adds_zero [[("A", Value.num 1)]] ["A"]
    ⟨.convert_to_number, some "Z", "Convert Z to number", true⟩ "Z"
    (Or.inr (Or.inl rfl)) rfl (by decide) rfl (by decide)
  simpa using h

/-! ## Claim C1: idempotence of the cleaning pipeline

The claim asserts idempotence whenever the enabled operations contain a
`remove_duplicates` and/or a `fill_missing_mean`.  This fails: a value-filling
operation can make two previously distinct rows identical, so a second run's
deduplication deletes a row. -/

/-- **C1, counterexample.**  With `remove_duplicates` and
`fill_missing_mean("A")` both enabled, the rows `{A:2}` and `{A:""}` clean to
`[{A:2},{A:2}]` (distinct signatures survive dedup, the missing cell is filled
with the mean 2), but re-running the same operations dedups the now-identical
rows to `[{A:2}]`. -/
theorem c1_counterexample :
    cleanDataset
        (cleanDataset [[("A", Value.num 2)], [("A", Value.str "")]] ["A"]
          [⟨.remove_duplicates, Option.none, "Remove duplicate rows", true⟩,
            ⟨.fill_missing_mean, some "A", "Fill missing A with mean", true⟩]) ["A"]
        [⟨.remove_duplicates, Option.none, "Remove duplicate rows", true⟩,
          ⟨.fill_missing_mean, some "A", "Fill missing A with mean", true⟩]
      ≠ cleanDataset [[("A", Value.num 2)], [("A", Value.str "")]] ["A"]
        [⟨.remove_duplicates, Option.none, "Remove duplicate rows", true⟩,
          ⟨.fill_missing_mean, some "A", "Fill missing A with mean", true⟩] := by
  have h1 : cleanDataset [[("A", Value.num 2)], [("A", Value.str "")]] ["A"]
      [⟨.remove_duplicates, Option.none, "Remove duplicate rows", true⟩,
        ⟨.fill_missing_mean, some "A", "Fill missing A with mean", true⟩]
      = [[("A", Value.num 2)], [("A", Value.num 2)]] := by
    simp +decide only [cleanDataset, activeOps, dedupe, dedupeGo, dropEmpty, phase3, phase4,
      applyOp, applyMean, meanOf, numericValues, rowGet, rowSet, isMeanOp, truthyColumn, colOf,
      sigOfRow, joinElem, jsString, ratToString, isMissingVal, round2, List.filterMap,
      List.filter, List.map, List.foldl, List.any, List.all, List.find?, List.contains,
      List.elem, rowComplete]
    norm_num
  have h2 : cleanDataset [[("A", Value.num 2)], [("A", Value.num 2)]] ["A"]
      [⟨.remove_duplicates, Option.none, "Remove duplicate rows", true⟩,
        ⟨.fill_missing_mean, some "A", "Fill missing A with mean", true⟩]
      = [[("A", Value.num 2)]] := by
    simp +decide only [cleanDataset, activeOps, dedupe, dedupeGo, dropEmpty, phase3, phase4,
      applyOp, applyMean, meanOf, numericValues, rowGet, rowSet, isMeanOp, truthyColumn, colOf,
      sigOfRow, joinElem, jsString, ratToString, isMissingVal, round2, List.filterMap,
      List.filter, List.map, List.foldl, List.any, List.all, List.find?, List.contains,
      List.elem, rowComplete]
  rw [h1, h2]
  simp

/-! ## Claim C7: duplicate-row estimation -/

lemma any_congr' {α : Type _} {l : List α} {p q : α → Bool} (h : ∀ a ∈ l, p a = q a) :
    l.any p = l.any q := by
  induction l with
  | nil => rfl
  | cons a l ih =>
    rw [List.any_cons, List.any_cons, h a (List.mem_cons_self a l),
      ih (fun b hb => h b (List.mem_cons_of_mem a hb))]

lemma countP_congr' {α : Type _} {l : List α} {p q : α → Bool} (h : ∀ a ∈ l, p a = q a) :
    l.countP p = l.countP q :=
  List.countP_congr (fun a ha => by rw [h a ha])

/-- The seen-set loop counts exactly the scanned rows whose signature already
occurred earlier (or in the initial seen set). -/
lemma dupLoop_eq (l : List Row) : ∀ seen : List String,
    dupLoop l seen
      = (List.range l.length).countP (fun i =>
          seen.contains (sigOfRow (l.getD i []))
            || (List.range i).any
                (fun j => sigOfRow (l.getD j []) == sigOfRow (l.getD i []))) := by
  induction l with
  | nil => intro seen; rfl
  | cons r rs ih =>
    intro seen
    rw [List.length_cons, List.range_succ_eq_map, List.countP_cons, List.countP_map]
    have htail : ∀ i ∈ List.range rs.length,
        ((fun i => seen.contains (sigOfRow ((r :: rs).getD i []))
            || (List.range i).any
                (fun j => sigOfRow ((r :: rs).getD j []) == sigOfRow ((r :: rs).getD i [])))
          ∘ Nat.succ) i
          = (seen.contains (sigOfRow (rs.getD i []))
              || ((sigOfRow r == sigOfRow (rs.getD i []))
                  || (List.range i).any
                      (fun j => sigOfRow (rs.getD j []) == sigOfRow (rs.getD i [])))) := by
      intro i _
      show (seen.contains (sigOfRow ((r :: rs).getD (i + 1) []))
          || (List.range (i + 1)).any
              (fun j => sigOfRow ((r :: rs).getD j []) == sigOfRow ((r :: rs).getD (i + 1) [])))
          = _
      rw [List.getD_cons_succ, List.range_succ_eq_map, List.any_cons, List.any_map]
      rfl
    have hhead0 : sigOfRow ((r :: rs).getD 0 []) = sigOfRow r := by
      rw [List.getD_cons_zero]
    show (if seen.contains (sigOfRow r) = true then dupLoop rs seen + 1
        else dupLoop rs (sigOfRow r :: seen)) = _
    by_cases hseen : seen.contains (sigOfRow r) = true
    · rw [if_pos hseen]
      have hhead : (seen.contains (sigOfRow ((r :: rs).getD 0 []))
          || (List.range 0).any
              (fun j => sigOfRow ((r :: rs).getD j []) == sigOfRow ((r :: rs).getD 0 [])))
          = true := by
        rw [hhead0, hseen, Bool.true_or]
      rw [countP_congr' htail, if_pos hhead, ih seen]
      congr 1
      apply countP_congr'
      intro i _
      by_cases heq : sigOfRow r = sigOfRow (rs.getD i [])
      · have hc : seen.contains (sigOfRow (rs.getD i [])) = true := heq ▸ hseen
        rw [hc]
        simp only [Bool.true_or]
      · have hb : (sigOfRow r == sigOfRow (rs.getD i [])) = false :=
          beq_eq_false_iff_ne.mpr heq
        rw [hb]
        simp only [Bool.false_or]
    · have hseen' : seen.contains (sigOfRow r) = false := by
        simpa using hseen
      rw [if_neg hseen]
      have hhead : (seen.contains (sigOfRow ((r :: rs).getD 0 []))
          || (List.range 0).any
              (fun j => sigOfRow ((r :: rs).getD j []) == sigOfRow ((r :: rs).getD 0 [])))
          = false := by
        rw [hhead0, hseen', Bool.false_or]
        rfl
      rw [countP_congr' htail, if_neg (by rw [hhead]; exact Bool.false_ne_true),
        ih (sigOfRow r :: seen)]
      rw [Nat.add_zero]
      apply countP_congr'
      intro i _
      rw [List.contains_cons]
      by_cases heq : sigOfRow (rs.getD i []) = sigOfRow r
      · have hb1 : (sigOfRow (rs.getD i []) == sigOfRow r) = true := beq_iff_eq.mpr heq
        have hb2 : (sigOfRow r == sigOfRow (rs.getD i [])) = true := beq_iff_eq.mpr heq.symm
        rw [hb1, hb2]
        simp only [Bool.true_or, Bool.or_true]
      · have hb1 : (sigOfRow (rs.getD i []) == sigOfRow r) = false :=
          beq_eq_false_iff_ne.mpr heq
        have hb2 : (sigOfRow r == sigOfRow (rs.getD i [])) = false :=
          beq_eq_false_iff_ne.mpr (fun h => heq h.symm)
        rw [hb1, hb2]
        simp only [Bool.false_or]

lemma getD_take' {l : List Row} {n i : ℕ} (h : i < n) :
    (l.take n).getD i [] = l.getD i [] := by
  rw [List.getD_eq_getElem?_getD, List.getD_eq_getElem?_getD, List.getElem?_take, if_pos h]

/-- The sampled seen-set loop computes the spec-side duplicate count. -/
lemma dupLoop_take_eq (data : List Row) (lim : ℕ) (hlim : lim ≤ data.length) :
    dupLoop (data.take lim) [] = specDupCount data lim := by
  rw [dupLoop_eq]
  unfold specDupCount
  have hlen : (data.take lim).length = lim := by
    rw [List.length_take]
    omega
  rw [hlen]
  apply countP_congr'
  intro i hi
  rw [List.mem_range] at hi
  rw [getD_take' hi]
  rw [show (([] : List String).contains (sigOfRow (data.getD i []))) = false from rfl,
    Bool.false_or]
  apply any_congr'
  intro j hj
  rw [List.mem_range] at hj
  rw [getD_take' (hj.trans hi)]

/-- **C7.**  `assessDataQuality` scans the first `min(rowCount, 2000)` rows,
counts each scanned row whose signature was already seen, and — when the
sample is smaller than the dataset — extrapolates by
`floor(duplicateCount / sampleSize * totalRows)`, otherwise reports the exact
count.  On the 3-row example the result is exactly 1. -/
theorem c7_duplicate_estimate :
    (∀ (data : List Row) (cols : List String),
        (assessDataQuality data cols).duplicateRows =
          if min data.length 2000 < data.length then
            specDupCount data (min data.length 2000) * data.length / min data.length 2000
          else specDupCount data (min data.length 2000))
      ∧ (assessDataQuality [[("A", Value.num 1), ("B", Value.str "x")],
            [("A", Value.num 2), ("B", Value.str "y")],
            [("A", Value.num 1), ("B", Value.str "x")]] ["A", "B"]).duplicateRows = 1 := by
  constructor
  · intro data cols
    have hlim : min data.length 2000 ≤ data.length := Nat.min_le_left _ _
    have hd : dupLoop (data.take (min data.length 2000)) []
        = specDupCount data (min data.length 2000) := dupLoop_take_eq _ _ hlim
    simp only [assessDataQuality, assessDuplicateRows]
    rw [hd]
    by_cases h1 : min data.length 2000 < data.length
    · by_cases h2 : 0 < specDupCount data (min data.length 2000)
      · simp [h1, h2]
      · have h0 : specDupCount data (min data.length 2000) = 0 := by omega
        simp [h1, h0]
    · simp [h1]
  · decide

/-! ## Claim C6: a fully missing column -/

lemma countP_mod5_range : ∀ n : ℕ,
    (List.range n).countP (fun i => i % 5 == 0) = (n + 4) / 5 := by
  intro n
  induction n with
  | zero => rfl
  | succ n ih =>
    rw [List.range_succ, List.countP_append, ih]
    by_cases h : n % 5 = 0
    · have hb : ((fun i => i % 5 == 0) n) = true := by simpa using h
      rw [List.countP_cons, List.countP_nil, if_pos hb]
      omega
    · have hb : ((fun i => i % 5 == 0) n) = false := by simpa using h
      rw [List.countP_cons, List.countP_nil, if_neg (by simpa using h)]
      omega

lemma getD_replicate {α : Type _} {n i : ℕ} (h : i < n) (a d : α) :
    (List.replicate n a).getD i d = a := by
  rw [List.getD_eq_getElem?_getD, List.getElem?_replicate, if_pos h]
  rfl

lemma lookup_map_self {β : Type _} (cols : List String) (f : String → β) (C : String)
    (h : C ∈ cols) :
    List.lookup C (cols.map (fun c => (c, f c))) = some (f C) := by
  induction cols with
  | nil => cases h
  | cons c cs ih =>
    rw [List.map_cons, List.lookup_cons]
    by_cases hc : C = c
    · subst hc
      simp
    · have hb : (C == c) = false := beq_eq_false_iff_ne.mpr hc
      rw [hb]
      exact ih ((List.mem_cons.mp h).resolve_left hc)

/-- **C6, counterexample.**  The claim quantifies over *every* dataset with a
fully missing column `C`, but for more than 50,000 rows the missing count is
sampled and extrapolated: on 50,001 all-missing rows the reported count is
`round(10001 * 5) = 50005`, not `N = 50001`. -/
theorem c6_counterexample :
    List.lookup "C" (assessDataQuality (List.replicate 50001 [("C", Value.null)])
        ["C"]).missingValues = some 50005
      ∧ List.lookup "C" (assessDataQuality (List.replicate 50001 [("C", Value.null)])
          ["C"]).missingValues ≠ some 50001 := by
  have hlen : (List.replicate 50001 ([("C", Value.null)] : Row)).length = 50001 :=
    List.length_replicate 50001 _
  have hraw : colMissingRaw (List.replicate 50001 [("C", Value.null)]) "C" 5 = 10001 := by
    unfold colMissingRaw
    rw [hlen]
    have hcongr : ∀ i ∈ List.range 50001,
        ((fun i => i % 5 == 0 && isMissingVal
            (rowGet ((List.replicate 50001 [("C", Value.null)]).getD i []) "C")) i)
          = ((fun i => i % 5 == 0) i) := by
      intro i hi
      rw [List.mem_range] at hi
      show (i % 5 == 0 && isMissingVal
          (rowGet ((List.replicate 50001 [("C", Value.null)]).getD i []) "C")) = (i % 5 == 0)
      rw [getD_replicate hi]
      rw [show isMissingVal (rowGet [("C", Value.null)] "C") = true from rfl, Bool.and_true]
    rw [countP_congr' hcongr, countP_mod5_range]
  have hstep : assessStep (List.replicate 50001 [("C", Value.null)]) = 5 := by
    unfold assessStep
    rw [hlen]
    norm_num
  have hval : assessMissingValue (List.replicate 50001 [("C", Value.null)]) "C" = 50005 := by
    simp only [assessMissingValue, hstep, hraw, hlen]
    norm_num
  have hmv : (assessDataQuality (List.replicate 50001 [("C", Value.null)])
        ["C"]).missingValues
      = [("C", assessMissingValue (List.replicate 50001 [("C", Value.null)]) "C")] := rfl
  rw [hmv, hval]
  exact ⟨rfl, by decide⟩

/-- **C6, amended.**  For a dataset of at most 50,000 rows (so that the
missing-value scan is exhaustive, `step = 1`) with a schema column `C` missing
in every row, `assessDataQuality` returns (it is a total function — nothing
throws) `missingValues[C] = totalRows` and `columnTypes[C] = number` (both
type-inference counters stay `0` and the `numCount ≥ textCount` tie defaults
to number). -/
theorem c6_all_missing_column (data : List Row) (cols : List String) (C : String)
    (hmem : C ∈ cols) (hsize : data.length ≤ 50000)
    (hmiss : ∀ r ∈ data, isMissingVal (rowGet r C) = true) :
    List.lookup C (assessDataQuality data cols).missingValues = some data.length
      ∧ List.lookup C (assessDataQuality data cols).columnTypes = some ColType.number := by
  have hnl : ¬ (data.length > 50000) := by omega
  have hnl' : (data.length > 50000) = False := eq_false hnl
  have hgd : ∀ i, i < data.length → data.getD i [] ∈ data := by
    intro i hi
    rw [List.getD_eq_getElem?_getD, List.getElem?_eq_getElem hi]
    exact List.getElem_mem hi
  have hraw : colMissingRaw data C 1 = data.length := by
    unfold colMissingRaw
    have : ∀ i ∈ List.range data.length,
        ((fun i => i % 1 == 0 && isMissingVal (rowGet (data.getD i []) C)) i) = true := by
      intro i hi
      rw [List.mem_range] at hi
      show (i % 1 == 0 && isMissingVal (rowGet (data.getD i []) C)) = true
      have h1 : (i % 1 == 0) = true := by simp [Nat.mod_one]
      rw [h1, Bool.true_and]
      exact hmiss _ (hgd i hi)
    rw [List.countP_eq_length.mpr this, List.length_range]
  have hnum : colNumCount data C = 0 := by
    unfold colNumCount
    rw [List.countP_eq_zero.mpr]
    intro i hi
    rw [List.mem_range] at hi
    have hin : data.getD i [] ∈ data := hgd i (lt_of_lt_of_le hi (min_le_left _ _))
    have hm := hmiss _ hin
    show ¬ typeNumPred (rowGet (data.getD i []) C) = true
    unfold typeNumPred
    cases hv : rowGet (data.getD i []) C with
    | num q => rw [hv] at hm; simp [isMissingVal] at hm
    | str s => rw [hv] at hm; simp [typeofNumber, hm]
    | null => simp [typeofNumber, isMissingVal]
    | undefined => simp [typeofNumber, isMissingVal]
  have hstr : colStrCount data C = 0 := by
    unfold colStrCount
    rw [List.countP_eq_zero.mpr]
    intro i hi
    rw [List.mem_range] at hi
    have hin : data.getD i [] ∈ data := hgd i (lt_of_lt_of_le hi (min_le_left _ _))
    have hm := hmiss _ hin
    show ¬ typeStrPred (rowGet (data.getD i []) C) = true
    unfold typeStrPred
    rw [hm]
    simp
  have hstep : assessStep data = 1 := by
    unfold assessStep
    rw [if_neg hnl]
  constructor
  · have hmv : (assessDataQuality data cols).missingValues
        = cols.map (fun c => (c, assessMissingValue data c)) := rfl
    have hval : assessMissingValue data C = data.length := by
      simp only [assessMissingValue, hstep, hraw]
      simp
    rw [hmv, lookup_map_self cols _ C hmem, hval]
  · have hct : (assessDataQuality data cols).columnTypes
        = cols.map (fun c => (c, assessColType data c)) := rfl
    have hty : assessColType data C = ColType.number := by
      unfold assessColType
      rw [hstr, hnum]
      simp
    rw [hct, lookup_map_self cols _ C hmem, hty]

/-! ## Claim C8: slicer filter semantics -/

lemma perm_all_eq {α : Type _} {l l' : List α} (h : l.Perm l') (p : α → Bool) :
    l.all p = l'.all p := by
  rw [Bool.eq_iff_iff, List.all_eq_true, List.all_eq_true]
  constructor
  · intro hall a ha
    exact hall a (h.mem_iff.mpr ha)
  · intro hall a ha
    exact hall a (h.mem_iff.mp ha)

lemma passes_iff_all (F : List (String × List String)) (r : Row) :
    (F.all (fun p => p.2.contains (jsString (rowGet r p.1))) = true) ↔ passesFilters F r := by
  rw [List.all_eq_true]
  unfold passesFilters
  constructor
  · intro h p hp
    have := h p hp
    simpa using this
  · intro h p hp
    simpa using h p hp

/-- **C8.**  Filter application returns exactly the rows passing the
conjunction of the per-column filters (membership of the stringified value in
each filtered column's allowed set); the result is independent of the order of
the filter entries, and re-applying the same filters to the filtered output
returns it unchanged. -/
theorem c8_filter_semantics (D : List Row) (F F' : List (String × List String))
    (hperm : F.Perm F') :
    (∀ r : Row, r ∈ filteredData D F ↔ r ∈ D ∧ passesFilters F r)
      ∧ filteredData D F = filteredData D F'
      ∧ filteredData (filteredData D F) F = filteredData D F := by
  refine ⟨?_, ?_, ?_⟩
  · intro r
    by_cases hF : F = []
    · subst hF
      simp [filteredData, passesFilters]
    · unfold filteredData
      rw [if_neg (by simpa [List.isEmpty_iff] using hF)]
      rw [List.mem_filter, passes_iff_all]
  · have hemp : F.isEmpty = F'.isEmpty := by
      apply Bool.eq_iff_iff.mpr
      rw [List.isEmpty_iff_length_eq_zero, List.isEmpty_iff_length_eq_zero, hperm.length_eq]
  -- either both empty or both filters
    by_cases hF : F = []
    · have hF' : F' = [] := (hF ▸ hperm : ([] : List (String × List String)).Perm F').symm.eq_nil
      subst hF
      subst hF'
      rfl
    · unfold filteredData
      rw [if_neg (by simpa [List.isEmpty_iff] using hF),
        if_neg (by rw [← hemp]; simpa [List.isEmpty_iff] using hF)]
      apply List.filter_congr
      intro r _
      exact perm_all_eq hperm _
  · by_cases hF : F = []
    · subst hF
      rfl
    · unfold filteredData
      rw [if_neg (by simpa [List.isEmpty_iff] using hF),
        if_neg (by simpa [List.isEmpty_iff] using hF)]
      rw [List.filter_filter]
      apply List.filter_congr
      intro r _
      rw [Bool.and_self]

/-- **C8, witness.** -/
theorem c8_filter_semantics_witness :
    (([("region", Value.str "East"), ("cat", Value.str "A")] : Row)
        ∈ filteredData [[("region", Value.str "East"), ("cat", Value.str "A")],
            [("region", Value.str "West"), ("cat", Value.str "A")]]
            [("region", ["East"]), ("cat", ["A", "B"])]
      ↔ ([("region", Value.str "East"), ("cat", Value.str "A")] : Row)
        ∈ [[("region", Value.str "East"), ("cat", Value.str "A")],
            [("region", Value.str "West"), ("cat", Value.str "A")]]
        ∧ passesFilters [("region", ["East"]), ("cat", ["A", "B"])]
            [("region", Value.str "East"), ("cat", Value.str "A")])
    ∧ filteredData [[("region", Value.str "East"), ("cat", Value.str "A")],
          [("region", Value.str "West"), ("cat", Value.str "A")]]
          [("region", ["East"]), ("cat", ["A", "B"])]
      = filteredData [[("region", Value.str "East"), ("cat", Value.str "A")],
          [("region", Value.str "West"), ("cat", Value.str "A")]]
          [("cat", ["A", "B"]), ("region", ["East"])]
    ∧ filteredData (filteredData [[("region", Value.str "East"), ("cat", Value.str "A")],
          [("region", Value.str "West"), ("cat", Value.str "A")]]
          [("region", ["East"]), ("cat", ["A", "B"])])
          [("region", ["East"]), ("cat", ["A", "B"])]
      = filteredData [[("region", Value.str "East"), ("cat", Value.str "A")],
          [("region", Value.str "West"), ("cat", Value.str "A")]]
          [("region", ["East"]), ("cat", ["A", "B"])] := by
  have h := c8_filter_semantics
    [[("region", Value.str "East"), ("cat", Value.str "A")],
      [("region", Value.str "West"), ("cat", Value.str "A")]]
    [("region", ["East"]), ("cat", ["A", "B"])]
    [("cat", ["A", "B"]), ("region", ["East"])]
    (by decide)
  exact ⟨h.1 _, h.2.1, h.2.2⟩

/-- **C6, witness.** -/
theorem c6_all_missing_column_witness :
    List.lookup "C" (assessDataQuality [[("C", Value.null)], [("C", Value.null)]]
        ["C"]).missingValues = some 2
      ∧ List.lookup "C" (assessDataQuality [[("C", Value.null)], [("C", Value.null)]]
          ["C"]).columnTypes = some ColType.number := by
  have h := c6_all_missing_column [[("C", Value.null)], [("C", Value.null)]] ["C"] "C"
    (by decide) (by decide) (by decide)
  simpa using h

/-! ## Stable-sort lemmas for the chart comparators -/

lemma jsInsert_perm {α : Type _} (cmp : α → α → Ordering) (a : α) (l : List α) :
    (jsInsert cmp a l).Perm (a :: l) := by
  induction l with
  | nil => exact List.Perm.refl _
  | cons b bs ih =>
    unfold jsInsert
    by_cases h : (cmp a b == Ordering.gt) = true
    · rw [if_pos h]
      exact (ih.cons b).trans (List.Perm.swap a b bs)
    · rw [if_neg h]

lemma jsSortBy_perm {α : Type _} (cmp : α → α → Ordering) (l : List α) :
    (jsSortBy cmp l).Perm l := by
  induction l with
  | nil => exact List.Perm.refl _
  | cons a as ih =>
    exact (jsInsert_perm cmp a _).trans (ih.cons a)

lemma ord_beq_gt_iff {o : Ordering} : (o == Ordering.gt) = true ↔ o = Ordering.gt := by
  cases o <;> decide

lemma jsInsert_pairwise {α : Type _} {P : α → Prop} {cmp : α → α → Ordering}
    (htot : ∀ x y, P x → P y → cmp x y = .gt → cmp y x ≠ .gt)
    (htrans : ∀ x y z, P x → P y → P z → cmp x y ≠ .gt → cmp y z ≠ .gt → cmp x z ≠ .gt)
    {a : α} (ha : P a) : ∀ {l : List α}, (∀ x ∈ l, P x) →
    l.Pairwise (fun x y => cmp x y ≠ .gt) →
    (jsInsert cmp a l).Pairwise (fun x y => cmp x y ≠ .gt) := by
  intro l
  induction l with
  | nil =>
    intro _ _
    simp [jsInsert]
  | cons b bs ih =>
    intro hl hp
    rw [List.pairwise_cons] at hp
    obtain ⟨hb, hbs⟩ := hp
    unfold jsInsert
    by_cases h : (cmp a b == Ordering.gt) = true
    · rw [if_pos h]
      rw [List.pairwise_cons]
      refine ⟨?_, ih (fun z hz => hl z (List.mem_cons_of_mem _ hz)) hbs⟩
      intro z hz
      rcases List.mem_cons.mp ((jsInsert_perm cmp a bs).mem_iff.mp hz) with rfl | hzbs
      · exact htot z b ha (hl b (List.mem_cons_self _ _)) (ord_beq_gt_iff.mp h)
      · exact hb z hzbs
    · rw [if_neg h]
      rw [List.pairwise_cons]
      refine ⟨?_, List.pairwise_cons.mpr ⟨hb, hbs⟩⟩
      intro z hz
      have hne : cmp a b ≠ Ordering.gt := fun hc => h (ord_beq_gt_iff.mpr hc)
      rcases List.mem_cons.mp hz with rfl | hzbs
      · exact hne
      · exact htrans a b z ha (hl b (List.mem_cons_self _ _))
          (hl z (List.mem_cons_of_mem _ hzbs)) hne (hb z hzbs)

lemma jsSortBy_pairwise {α : Type _} {P : α → Prop} {cmp : α → α → Ordering}
    (htot : ∀ x y, P x → P y → cmp x y = .gt → cmp y x ≠ .gt)
    (htrans : ∀ x y z, P x → P y → P z → cmp x y ≠ .gt → cmp y z ≠ .gt → cmp x z ≠ .gt) :
    ∀ {l : List α}, (∀ x ∈ l, P x) →
    (jsSortBy cmp l).Pairwise (fun x y => cmp x y ≠ .gt) := by
  intro l
  induction l with
  | nil =>
    intro _
    exact List.Pairwise.nil
  | cons a as ih =>
    intro hl
    exact jsInsert_pairwise htot htrans (hl a (List.mem_cons_self _ _))
      (fun z hz => hl z (List.mem_cons_of_mem _ ((jsSortBy_perm cmp as).mem_iff.mp hz)))
      (ih (fun z hz => hl z (List.mem_cons_of_mem _ hz)))

lemma ratCmp_eq_gt {p q : ℚ} : ratCmp p q = .gt ↔ q < p := by
  unfold ratCmp
  rcases lt_trichotomy p q with h | h | h
  · rw [if_pos h]
    exact iff_of_false (by decide) (not_lt.mpr h.le)
  · subst h
    rw [if_neg (lt_irrefl p), if_neg (lt_irrefl p)]
    exact iff_of_false (by decide) (lt_irrefl p)
  · rw [if_neg (not_lt.mpr h.le), if_pos h]
    exact iff_of_true rfl h

lemma strCmpChars_gt_asymm : ∀ as bs, strCmpChars as bs = .gt → strCmpChars bs as ≠ .gt := by
  intro as
  induction as with
  | nil =>
    intro bs h
    cases bs with
    | nil => exact absurd h (by decide)
    | cons b bs => exact absurd h (by simp [strCmpChars])
  | cons a as ih =>
    intro bs h
    cases bs with
    | nil =>
      intro h2
      exact absurd h2 (by simp [strCmpChars])
    | cons b bs =>
      simp only [strCmpChars] at h ⊢
      by_cases h1 : a.toNat < b.toNat
      · rw [if_pos h1] at h
        cases h
      · rw [if_neg h1] at h
        by_cases h2 : b.toNat < a.toNat
        · rw [if_pos h2] at h
          rw [if_pos (by omega)]
          decide
        · rw [if_neg h2] at h
          rw [if_neg (by omega), if_neg (by omega)]
          exact ih bs h

lemma strCmpChars_not_gt_trans :
    ∀ as bs cs, strCmpChars as bs ≠ .gt → strCmpChars bs cs ≠ .gt →
      strCmpChars as cs ≠ .gt := by
  intro as
  induction as with
  | nil =>
    intro bs cs _ _
    cases cs with
    | nil => simp [strCmpChars]
    | cons c cs => simp [strCmpChars]
  | cons a as ih =>
    intro bs cs hab hbc
    cases bs with
    | nil => exact (hab (by simp [strCmpChars])).elim
    | cons b bs =>
      cases cs with
      | nil => exact (hbc (by simp [strCmpChars])).elim
      | cons c cs =>
        simp only [strCmpChars] at hab hbc ⊢
        by_cases h1 : a.toNat < c.toNat
        · rw [if_pos h1]
          decide
        · rw [if_neg h1]
          have hab' : ¬ b.toNat < a.toNat := by
            intro hba
            exact hab (by rw [if_neg (by omega), if_pos hba])
          have hbc' : ¬ c.toNat < b.toNat := by
            intro hcb
            exact hbc (by rw [if_neg (by omega), if_pos hcb])
          by_cases h2 : c.toNat < a.toNat
          · exact absurd h2 (by omega)
          · rw [if_neg h2]
            have heqac : a.toNat = c.toNat := by omega
            by_cases hab1 : a.toNat < b.toNat
            · exact absurd (show a.toNat < c.toNat by omega) h1
            · have habe : a.toNat = b.toNat := by omega
              have hab2 : strCmpChars as bs ≠ .gt := by
                intro h
                exact hab (by rw [if_neg hab1, if_neg hab']; exact h)
              have hbc2 : strCmpChars bs cs ≠ .gt := by
                intro h
                exact hbc (by rw [if_neg (by omega), if_neg hbc']; exact h)
              exact ih bs cs hab2 hbc2

lemma strCmp_gt_asymm {s t : String} (h : strCmp s t = .gt) : strCmp t s ≠ .gt :=
  strCmpChars_gt_asymm _ _ h

lemma strCmp_not_gt_trans {s t u : String} (h1 : strCmp s t ≠ .gt) (h2 : strCmp t u ≠ .gt) :
    strCmp s u ≠ .gt :=
  strCmpChars_not_gt_trans _ _ _ h1 h2

/-! ## Claim C5: the aggregation-`none` path

The claim says Line/Area rows are sorted with the 3-tier comparator (numeric
parse, then date parse, then string).  The code's aggregation-`none` sort uses
a different, 2-tier comparator: numeric only when both values are `typeof`
numbers, else plain string comparison — numeric strings and dates are *not*
parsed there (the 3-tier comparator is applied only to grouped output). -/

/-- **C5, counterexample.**  For a Line chart with aggregation `none` and the
string x-values `"10"` and `"2"`, the output keeps the input order (string
compare: `"10" < "2"`), yet the claimed 3-tier comparator orders the first
output row strictly *after* the second (numeric compare `10 > 2`): the output
is not sorted by the claimed comparator. -/
theorem c5_counterexample :
    chartData ⟨"c1", "t", .line, "x", .one "y", some .none⟩
        [[("x", Value.str "10")], [("x", Value.str "2")]]
      = [[("x", Value.str "10")], [("x", Value.str "2")]]
      ∧ specCmp3Tier "x" [("x", Value.str "10")] [("x", Value.str "2")] = .gt := by
  constructor
  · decide
  · have h10 : toNum (rowGet [("x", Value.str "10")] "x")
        = some ((1 : ℚ) * ((10 : ℕ) : ℚ)) := rfl
    have h2 : toNum (rowGet [("x", Value.str "2")] "x")
        = some ((1 : ℚ) * ((2 : ℕ) : ℚ)) := rfl
    simp only [specCmp3Tier]
    rw [h10, h2]
    show ratCmp ((1 : ℚ) * ((10 : ℕ) : ℚ)) ((1 : ℚ) * ((2 : ℕ) : ℚ)) = .gt
    unfold ratCmp
    rw [if_neg (by norm_num), if_pos (by norm_num)]

/-- **C5, amended.**  Scatter charts pass rows through unmodified (any
aggregation), as do non-Line/Area chart types when aggregation is `none`;
Line/Area with aggregation `none` sorts the rows by the 2-tier comparator
`cmpNone` (numeric difference when both xKey values are `typeof` numbers,
else string comparison of their `String(...)` renderings — there is no date
tier and numeric strings compare as strings) with a stable sort: the output
is a permutation of the rows, pairwise ordered by that comparator whenever
the xKey values are homogeneous (all numbers, or all non-numbers — on mixed
values the comparator is not transitive and ECMA-262 leaves the order
implementation-defined). -/
theorem c5_none_aggregation_path (id ttl x y : String) (agg : Option AggKind)
    (agg0 : Option AggKind) (t : ChartType) (data : List Row)
    (hline : t = .line ∨ t = .area)
    (hagg0 : agg0 = Option.none ∨ agg0 = some .none)
    (hhom : (∀ r ∈ data, typeofNumber (rowGet r x) = true)
        ∨ (∀ r ∈ data, typeofNumber (rowGet r x) = false)) :
    chartData ⟨id, ttl, .scatter, x, .one y, agg⟩ data = data
      ∧ chartData ⟨id, ttl, .bar, x, .one y, agg0⟩ data = data
      ∧ chartData ⟨id, ttl, .pie, x, .one y, agg0⟩ data = data
      ∧ chartData ⟨id, ttl, t, x, .one y, agg0⟩ data = jsSortBy (cmpNone x) data
      ∧ (chartData ⟨id, ttl, t, x, .one y, agg0⟩ data).Perm data
      ∧ (chartData ⟨id, ttl, t, x, .one y, agg0⟩ data).Pairwise
          (fun a b => cmpNone x a b ≠ .gt) := by
  have hsort : chartData ⟨id, ttl, t, x, .one y, agg0⟩ data = jsSortBy (cmpNone x) data := by
    rcases hline with h | h <;> rcases hagg0 with h0 | h0 <;> subst h <;> subst h0 <;> rfl
  refine ⟨rfl, ?_, ?_, hsort, ?_, ?_⟩
  · rcases hagg0 with h0 | h0 <;> subst h0 <;> rfl
  · rcases hagg0 with h0 | h0 <;> subst h0 <;> rfl
  · rw [hsort]
    exact jsSortBy_perm _ _
  · rw [hsort]
    rcases hhom with hnum | hstr
    · apply jsSortBy_pairwise (P := fun r => typeofNumber (rowGet r x) = true)
      · intro a b hpa hpb hgt
        cases hva : rowGet a x with
        | num p =>
          cases hvb : rowGet b x with
          | num q =>
            rw [show cmpNone x a b = ratCmp p q by unfold cmpNone; rw [hva, hvb],
              ratCmp_eq_gt] at hgt
            rw [show cmpNone x b a = ratCmp q p by unfold cmpNone; rw [hva, hvb]]
            intro hgt'
            rw [ratCmp_eq_gt] at hgt'
            exact absurd hgt (not_lt.mpr hgt'.le)
          | str s => rw [hvb] at hpb; cases hpb
          | null => rw [hvb] at hpb; cases hpb
          | undefined => rw [hvb] at hpb; cases hpb
        | str s => rw [hva] at hpa; cases hpa
        | null => rw [hva] at hpa; cases hpa
        | undefined => rw [hva] at hpa; cases hpa
      · intro a b c hpa hpb hpc hab hbc
        cases hva : rowGet a x with
        | num p =>
          cases hvb : rowGet b x with
          | num q =>
            cases hvc : rowGet c x with
            | num s =>
              rw [show cmpNone x a b = ratCmp p q by unfold cmpNone; rw [hva, hvb]] at hab
              rw [show cmpNone x b c = ratCmp q s by unfold cmpNone; rw [hvb, hvc]] at hbc
              rw [show cmpNone x a c = ratCmp p s by unfold cmpNone; rw [hva, hvc]]
              intro hgt
              rw [ratCmp_eq_gt] at hgt
              have h1 : ¬ q < p := fun h => hab (ratCmp_eq_gt.mpr h)
              have h2 : ¬ s < q := fun h => hbc (ratCmp_eq_gt.mpr h)
              exact absurd hgt (not_lt.mpr ((not_lt.mp h1).trans (not_lt.mp h2)))
            | str s => rw [hvc] at hpc; cases hpc
            | null => rw [hvc] at hpc; cases hpc
            | undefined => rw [hvc] at hpc; cases hpc
          | str s => rw [hvb] at hpb; cases hpb
          | null => rw [hvb] at hpb; cases hpb
          | undefined => rw [hvb] at hpb; cases hpb
        | str s => rw [hva] at hpa; cases hpa
        | null => rw [hva] at hpa; cases hpa
        | undefined => rw [hva] at hpa; cases hpa
      · intro r hr
        exact hnum r hr
    · have hcstr : ∀ a b : Row, typeofNumber (rowGet a x) = false →
          cmpNone x a b = strCmp (jsString (rowGet a x)) (jsString (rowGet b x)) := by
        intro a b hpa
        unfold cmpNone
        cases hva : rowGet a x with
        | num p => rw [hva] at hpa; cases hpa
        | str s => cases hvb : rowGet b x <;> rfl
        | null => cases hvb : rowGet b x <;> rfl
        | undefined => cases hvb : rowGet b x <;> rfl
      apply jsSortBy_pairwise (P := fun r => typeofNumber (rowGet r x) = false)
      · intro a b hpa hpb hgt
        rw [hcstr a b hpa] at hgt
        rw [hcstr b a hpb]
        exact strCmp_gt_asymm hgt
      · intro a b c hpa hpb hpc hab hbc
        rw [hcstr a b hpa] at hab
        rw [hcstr b c hpb] at hbc
        rw [hcstr a c hpa]
        exact strCmp_not_gt_trans hab hbc
      · intro r hr
        exact hstr r hr

/-- **C5, witness.** -/
theorem c5_none_aggregation_path_witness :
    chartData ⟨"i", "t", .scatter, "x", .one "y", Option.none⟩
        [[("x", Value.num 3)], [("x", Value.num 1)]]
      = [[("x", Value.num 3)], [("x", Value.num 1)]]
      ∧ chartData ⟨"i", "t", .bar, "x", .one "y", Option.none⟩
          [[("x", Value.num 3)], [("x", Value.num 1)]]
        = [[("x", Value.num 3)], [("x", Value.num 1)]]
      ∧ chartData ⟨"i", "t", .pie, "x", .one "y", Option.none⟩
          [[("x", Value.num 3)], [("x", Value.num 1)]]
        = [[("x", Value.num 3)], [("x", Value.num 1)]]
      ∧ chartData ⟨"i", "t", .line, "x", .one "y", Option.none⟩
          [[("x", Value.num 3)], [("x", Value.num 1)]]
        = jsSortBy (cmpNone "x") [[("x", Value.num 3)], [("x", Value.num 1)]]
      ∧ (chartData ⟨"i", "t", .line, "x", .one "y", Option.none⟩
          [[("x", Value.num 3)], [("x", Value.num 1)]]).Perm
          [[("x", Value.num 3)], [("x", Value.num 1)]]
      ∧ (chartData ⟨"i", "t", .line, "x", .one "y", Option.none⟩
          [[("x", Value.num 3)], [("x", Value.num 1)]]).Pairwise
          (fun a b => cmpNone "x" a b ≠ .gt) :=
  c5_none_aggregation_path "i" "t" "x" "y" Option.none Option.none .line
    [[("x", Value.num 3)], [("x", Value.num 1)]]
    (Or.inl rfl) (Or.inl rfl) (Or.inl (by decide))

/-! ## Claim C2: grouped aggregation statistics -/

lemma minFold_go (m : ℚ) (ys : List ℚ) :
    ys.foldl (fun o v => some (match o with | some w => Min.min w v | Option.none => v)) (some m)
      = some (ys.foldl Min.min m) := by
  induction ys generalizing m with
  | nil => rfl
  | cons a as ih => exact ih (Min.min m a)

lemma maxFold_go (m : ℚ) (ys : List ℚ) :
    ys.foldl (fun o v => some (match o with | some w => Max.max w v | Option.none => v)) (some m)
      = some (ys.foldl Max.max m) := by
  induction ys generalizing m with
  | nil => rfl
  | cons a as ih => exact ih (Max.max m a)

lemma foldl_min_eq_min? (as : List ℚ) : ∀ a : ℚ, some (as.foldl Min.min a) = (a :: as).min? := by
  induction as with
  | nil => intro a; rfl
  | cons b bs ih =>
    intro a
    show some ((b :: bs).foldl Min.min a) = (a :: b :: bs).min?
    rw [List.foldl_cons, ih (Min.min a b), List.min?_cons, List.min?_cons, List.min?_cons]
    cases hbs : bs.min? with
    | none => simp
    | some m => simp [min_assoc]

lemma foldl_max_eq_max? (as : List ℚ) : ∀ a : ℚ, some (as.foldl Max.max a) = (a :: as).max? := by
  induction as with
  | nil => intro a; rfl
  | cons b bs ih =>
    intro a
    show some ((b :: bs).foldl Max.max a) = (a :: b :: bs).max?
    rw [List.foldl_cons, ih (Max.max a b), List.max?_cons, List.max?_cons, List.max?_cons]
    cases hbs : bs.max? with
    | none => simp
    | some m => simp [max_assoc]

lemma minFold_eq_min? (ys : List ℚ) : minFold ys = ys.min? := by
  cases ys with
  | nil => rfl
  | cons a as =>
    unfold minFold
    rw [List.foldl_cons]
    exact (minFold_go a as).trans (foldl_min_eq_min? as a)

lemma maxFold_eq_max? (ys : List ℚ) : maxFold ys = ys.max? := by
  cases ys with
  | nil => rfl
  | cons a as =>
    unfold maxFold
    rw [List.foldl_cons]
    exact (maxFold_go a as).trans (foldl_max_eq_max? as a)

lemma minFold_append (ys : List ℚ) (v : ℚ) :
    minFold (ys ++ [v])
      = some (match minFold ys with | some m => Min.min m v | Option.none => v) := by
  unfold minFold
  rw [List.foldl_append]
  rfl

lemma maxFold_append (ys : List ℚ) (v : ℚ) :
    maxFold (ys ++ [v])
      = some (match maxFold ys with | some m => Max.max m v | Option.none => v) := by
  unfold maxFold
  rw [List.foldl_append]
  rfl

lemma groupOf_append (rows : List Row) (r : Row) (x k : String) :
    groupOf (rows ++ [r]) x k
      = groupOf rows x k ++ (if jsString (rowGet r x) == k then [r] else []) := by
  unfold groupOf
  rw [List.filter_append]
  congr 1
  by_cases h : (jsString (rowGet r x) == k) = true
  · rw [if_pos h]
    simp [List.filter, h]
  · rw [if_neg h]
    simp only [Bool.not_eq_true] at h
    simp [List.filter, h]

lemma numericYs_append (g : List Row) (r : Row) (y : String) :
    numericYs (g ++ [r]) y = numericYs g y ++ (toNum (rowGet r y)).toList := by
  unfold numericYs
  cases h : toNum (rowGet r y) <;> simp [List.filterMap_append, h]

lemma accSpec?_append_ne (x y : String) (rows : List Row) (r : Row) {k : String}
    (hk : ¬ (jsString (rowGet r x) == k) = true) :
    accSpec? x y (rows ++ [r]) k = accSpec? x y rows k := by
  unfold accSpec?
  rw [groupOf_append, if_neg hk, List.append_nil]

lemma nodup_append_singleton {α : Type _} {l : List α} {a : α} (h : l.Nodup) (ha : a ∉ l) :
    (l ++ [a]).Nodup := by
  rw [List.nodup_append]
  exact ⟨h, List.nodup_singleton a, fun b hb hb' => ha (by
    rcases List.mem_singleton.mp hb' with rfl
    exact hb)⟩

lemma groupOf_append_self (rows : List Row) (r : Row) (x : String) :
    groupOf (rows ++ [r]) x (jsString (rowGet r x))
      = groupOf rows x (jsString (rowGet r x)) ++ [r] := by
  rw [groupOf_append, if_pos (beq_self_eq_true _)]

/-- Appending a row whose y value is NaN to a non-empty group leaves its
accumulator spec unchanged. -/
lemma accSpec?_append_noY (x y : String) (rows : List Row) (r : Row)
    (hv : toNum (rowGet r y) = Option.none)
    (hg : groupOf rows x (jsString (rowGet r x)) ≠ []) :
    accSpec? x y (rows ++ [r]) (jsString (rowGet r x))
      = accSpec? x y rows (jsString (rowGet r x)) := by
  cases hgc : groupOf rows x (jsString (rowGet r x)) with
  | nil => exact absurd hgc hg
  | cons r0 rest =>
    have hys : numericYs ((r0 :: rest) ++ [r]) y = numericYs (r0 :: rest) y := by
      rw [numericYs_append, hv]
      simp
    rw [List.cons_append] at hys
    unfold accSpec?
    rw [groupOf_append_self, hgc, List.cons_append, hys]

/-- Appending a row with numeric y value `yv` to a non-empty group bumps its
accumulator spec. -/
lemma accSpec?_append_bump (x y : String) (rows : List Row) (r : Row) (acc : GroupAcc)
    (yv : ℚ) (hv : toNum (rowGet r y) = some yv)
    (hacc : accSpec? x y rows (jsString (rowGet r x)) = some acc) :
    accSpec? x y (rows ++ [r]) (jsString (rowGet r x)) = some (bump acc yv) := by
  cases hgc : groupOf rows x (jsString (rowGet r x)) with
  | nil =>
    rw [accSpec?, hgc] at hacc
    exact absurd hacc (by simp)
  | cons r0 rest =>
    rw [accSpec?, hgc] at hacc
    rw [Option.some.injEq] at hacc
    have hys : numericYs ((r0 :: rest) ++ [r]) y = numericYs (r0 :: rest) y ++ [yv] := by
      rw [numericYs_append, hv]
      rfl
    rw [List.cons_append] at hys
    rw [accSpec?, groupOf_append_self, hgc, List.cons_append, Option.some.injEq, ← hacc, hys]
    unfold bump
    simp [minFold_append, maxFold_append, List.sum_append]

/-- The accumulator spec of a freshly created group. -/
lemma accSpec?_append_new (x y : String) (rows : List Row) (r : Row)
    (hg : groupOf rows x (jsString (rowGet r x)) = []) :
    accSpec? x y (rows ++ [r]) (jsString (rowGet r x))
      = some { xVal := rowGet r x
               count := (numericYs [r] y).length
               sum := (numericYs [r] y).sum
               min := minFold (numericYs [r] y)
               max := maxFold (numericYs [r] y) } := by
  rw [accSpec?, groupOf_append_self, hg, List.nil_append]

/-- One grouping step preserves the invariant tying the accumulator record to
the declarative per-group statistics. -/
lemma groupStep_preserves (x y : String) (rows : List Row) (r : Row)
    (gs : List (String × GroupAcc))
    (hnd : (gs.map Prod.fst).Nodup)
    (hspec : ∀ p ∈ gs, accSpec? x y rows p.1 = some p.2)
    (hkeys : ∀ k, (∃ p ∈ gs, p.1 = k) ↔ groupOf rows x k ≠ []) :
    ((groupStep x y gs r).map Prod.fst).Nodup
      ∧ (∀ p ∈ groupStep x y gs r, accSpec? x y (rows ++ [r]) p.1 = some p.2)
      ∧ (∀ k, (∃ p ∈ groupStep x y gs r, p.1 = k) ↔ groupOf (rows ++ [r]) x k ≠ []) := by
  have hne : ∀ {k : String}, k ≠ jsString (rowGet r x) →
      groupOf (rows ++ [r]) x k = groupOf rows x k := by
    intro k hk
    rw [groupOf_append, if_neg (by simpa using fun h => hk h.symm), List.append_nil]
  have hspec_ne : ∀ {k : String}, k ≠ jsString (rowGet r x) →
      accSpec? x y (rows ++ [r]) k = accSpec? x y rows k := by
    intro k hk
    exact accSpec?_append_ne x y rows r (by simpa using fun h => hk h.symm)
  have hkeys' : ∀ (gs' : List (String × GroupAcc)),
      (∀ k, (∃ p ∈ gs', p.1 = k) ↔ (groupOf rows x k ≠ [] ∨ k = jsString (rowGet r x))) →
      (∀ k, (∃ p ∈ gs', p.1 = k) ↔ groupOf (rows ++ [r]) x k ≠ []) := by
    intro gs' h k
    rw [h k]
    by_cases hk : k = jsString (rowGet r x)
    · subst hk
      rw [groupOf_append_self]
      simp
    · rw [hne hk]
      simp [hk]
  simp only [groupStep]
  by_cases hmem : (gs.any (fun p => p.1 == jsString (rowGet r x))) = true
  · rw [if_pos hmem]
    have hex : ∃ p ∈ gs, p.1 = jsString (rowGet r x) := by
      rw [List.any_eq_true] at hmem
      obtain ⟨p, hp, hpk⟩ := hmem
      exact ⟨p, hp, beq_iff_eq.mp hpk⟩
    have hg0 : groupOf rows x (jsString (rowGet r x)) ≠ [] := (hkeys _).mp hex
    have hkeq : ∀ k, (∃ p ∈ gs, p.1 = k) ↔
        (groupOf rows x k ≠ [] ∨ k = jsString (rowGet r x)) := by
      intro k
      rw [hkeys k]
      constructor
      · exact Or.inl
      · intro h
        rcases h with h | rfl
        · exact h
        · exact hg0
    cases hv : toNum (rowGet r y) with
    | none =>
      refine ⟨hnd, ?_, hkeys' gs hkeq⟩
      intro p hp
      by_cases hpk : p.1 = jsString (rowGet r x)
      · rw [hpk, accSpec?_append_noY x y rows r hv hg0, ← hpk]
        exact hspec p hp
      · rw [hspec_ne hpk]
        exact hspec p hp
    | some yv =>
      have hfst : ∀ p ∈ gs,
          (if (p.1 == jsString (rowGet r x)) = true
              then (jsString (rowGet r x), bump p.2 yv) else p).1 = p.1 := by
        intro p _
        by_cases hpk : (p.1 == jsString (rowGet r x)) = true
        · rw [if_pos hpk]
          exact (beq_iff_eq.mp hpk).symm
        · rw [if_neg hpk]
      have hmap : (gs.map (fun p => if p.1 == jsString (rowGet r x)
          then (jsString (rowGet r x), bump p.2 yv) else p)).map Prod.fst
          = gs.map Prod.fst := by
        rw [List.map_map]
        exact List.map_congr_left hfst
      refine ⟨by rw [hmap]; exact hnd, ?_, ?_⟩
      · intro p' hp'
        obtain ⟨p, hp, hfp⟩ := List.mem_map.mp hp'
        replace hfp : (if (p.1 == jsString (rowGet r x)) = true
            then (jsString (rowGet r x), bump p.2 yv) else p) = p' := hfp
        by_cases hpk : (p.1 == jsString (rowGet r x)) = true
        · rw [if_pos hpk] at hfp
          rw [← hfp]
          exact accSpec?_append_bump x y rows r p.2 yv hv
            ((beq_iff_eq.mp hpk) ▸ hspec p hp)
        · rw [if_neg hpk] at hfp
          rw [← hfp]
          rw [hspec_ne (by simpa using hpk)]
          exact hspec p hp
      · apply hkeys'
        intro k
        rw [← hkeq k]
        constructor
        · intro ⟨p', hp', hk⟩
          obtain ⟨p, hp, hfp⟩ := List.mem_map.mp hp'
          replace hfp : (if (p.1 == jsString (rowGet r x)) = true
              then (jsString (rowGet r x), bump p.2 yv) else p) = p' := hfp
          exact ⟨p, hp, by rw [← hfst p hp, hfp, hk]⟩
        · intro ⟨p, hp, hk⟩
          exact ⟨(if (p.1 == jsString (rowGet r x)) = true
              then (jsString (rowGet r x), bump p.2 yv) else p),
            List.mem_map.mpr ⟨p, hp, rfl⟩, by rw [hfst p hp]; exact hk⟩
  · rw [if_neg hmem]
    have hnomem : ∀ p ∈ gs, p.1 ≠ jsString (rowGet r x) := by
      intro p hp h
      exact hmem (List.any_eq_true.mpr ⟨p, hp, beq_iff_eq.mpr h⟩)
    have hg0 : groupOf rows x (jsString (rowGet r x)) = [] := by
      by_contra h
      obtain ⟨p, hp, hpk⟩ := (hkeys _).mpr h
      exact hnomem p hp hpk
    have hnd1 : ((gs ++ [(jsString (rowGet r x), initAcc (rowGet r x))]).map Prod.fst).Nodup := by
      rw [List.map_append]
      exact nodup_append_singleton hnd (by
        intro hmm
        obtain ⟨p, hp, hpk⟩ := List.mem_map.mp hmm
        exact hnomem p hp hpk)
    have hkeq : ∀ k, (∃ p ∈ gs ++ [(jsString (rowGet r x), initAcc (rowGet r x))], p.1 = k) ↔
        (groupOf rows x k ≠ [] ∨ k = jsString (rowGet r x)) := by
      intro k
      constructor
      · intro ⟨p, hp, hk⟩
        rcases List.mem_append.mp hp with hp' | hp'
        · exact Or.inl ((hkeys k).mp ⟨p, hp', hk⟩)
        · rcases List.mem_singleton.mp hp' with rfl
          exact Or.inr hk.symm
      · intro h
        rcases h with h | rfl
        · obtain ⟨p, hp, hk⟩ := (hkeys k).mpr h
          exact ⟨p, List.mem_append_left _ hp, hk⟩
        · exact ⟨_, List.mem_append_right _ (List.mem_singleton_self _), rfl⟩
    cases hv : toNum (rowGet r y) with
    | none =>
      have hys : numericYs [r] y = [] := by
        simp [numericYs, hv]
      refine ⟨hnd1, ?_, hkeys' _ hkeq⟩
      intro p hp
      rcases List.mem_append.mp hp with hp' | hp'
      · rw [hspec_ne (hnomem p hp')]
        exact hspec p hp'
      · rcases List.mem_singleton.mp hp' with rfl
        rw [accSpec?_append_new x y rows r hg0, hys]
        rfl
    | some yv =>
      have hys : numericYs [r] y = [yv] := by
        simp [numericYs, hv]
      have hfst : ∀ p ∈ gs ++ [(jsString (rowGet r x), initAcc (rowGet r x))],
          (if (p.1 == jsString (rowGet r x)) = true
              then (jsString (rowGet r x), bump p.2 yv) else p).1 = p.1 := by
        intro p _
        by_cases hpk : (p.1 == jsString (rowGet r x)) = true
        · rw [if_pos hpk]
          exact (beq_iff_eq.mp hpk).symm
        · rw [if_neg hpk]
      have hmap : ((gs ++ [(jsString (rowGet r x), initAcc (rowGet r x))]).map
          (fun p => if p.1 == jsString (rowGet r x)
            then (jsString (rowGet r x), bump p.2 yv) else p)).map Prod.fst
          = (gs ++ [(jsString (rowGet r x), initAcc (rowGet r x))]).map Prod.fst := by
        rw [List.map_map]
        exact List.map_congr_left hfst
      refine ⟨by rw [hmap]; exact hnd1, ?_, ?_⟩
      · intro p' hp'
        obtain ⟨p, hp, hfp⟩ := List.mem_map.mp hp'
        replace hfp : (if (p.1 == jsString (rowGet r x)) = true
            then (jsString (rowGet r x), bump p.2 yv) else p) = p' := hfp
        rcases List.mem_append.mp hp with hpg | hpg
        · rw [if_neg (by simpa using hnomem p hpg)] at hfp
          rw [← hfp, hspec_ne (hnomem p hpg)]
          exact hspec p hpg
        · rcases List.mem_singleton.mp hpg with rfl
          rw [if_pos (beq_self_eq_true _)] at hfp
          rw [← hfp, accSpec?_append_new x y rows r hg0, hys]
          show _ = some (bump (initAcc (rowGet r x)) yv)
          unfold bump initAcc
          simp [minFold, maxFold]
      · apply hkeys'
        intro k
        rw [← hkeq k]
        constructor
        · intro ⟨p', hp', hk⟩
          obtain ⟨p, hp, hfp⟩ := List.mem_map.mp hp'
          replace hfp : (if (p.1 == jsString (rowGet r x)) = true
              then (jsString (rowGet r x), bump p.2 yv) else p) = p' := hfp
          exact ⟨p, hp, by rw [← hfst p hp, hfp, hk]⟩
        · intro ⟨p, hp, hk⟩
          exact ⟨(if (p.1 == jsString (rowGet r x)) = true
              then (jsString (rowGet r x), bump p.2 yv) else p),
            List.mem_map.mpr ⟨p, hp, rfl⟩, by rw [hfst p hp]; exact hk⟩

/-- The grouping fold maintains the accumulator invariant over the processed
prefix. -/
lemma foldl_groupStep_invariant (x y : String) :
    ∀ (l rows : List Row) (gs : List (String × GroupAcc)),
      (gs.map Prod.fst).Nodup →
      (∀ p ∈ gs, accSpec? x y rows p.1 = some p.2) →
      (∀ k, (∃ p ∈ gs, p.1 = k) ↔ groupOf rows x k ≠ []) →
      (((l.foldl (groupStep x y) gs).map Prod.fst).Nodup
        ∧ (∀ p ∈ l.foldl (groupStep x y) gs, accSpec? x y (rows ++ l) p.1 = some p.2)
        ∧ (∀ k, (∃ p ∈ l.foldl (groupStep x y) gs, p.1 = k) ↔ groupOf (rows ++ l) x k ≠ [])) := by
  intro l
  induction l with
  | nil =>
    intro rows gs h1 h2 h3
    rw [List.append_nil]
    exact ⟨h1, h2, h3⟩
  | cons r l ih =>
    intro rows gs h1 h2 h3
    obtain ⟨g1, g2, g3⟩ := groupStep_preserves x y rows r gs h1 h2 h3
    have h := ih (rows ++ [r]) (groupStep x y gs r) g1 g2 g3
    rw [List.append_assoc, List.singleton_append] at h
    exact h

/-- The `groups` record of the grouping loop: unique keys, each accumulator
holding exactly the declarative statistics of its group, and a key present iff
its group is non-empty. -/
lemma buildGroups_spec (x y : String) (data : List Row) :
    (((buildGroups x y data).map Prod.fst).Nodup)
      ∧ (∀ p ∈ buildGroups x y data, accSpec? x y data p.1 = some p.2)
      ∧ (∀ k, (∃ p ∈ buildGroups x y data, p.1 = k) ↔ groupOf data x k ≠ []) := by
  have h := foldl_groupStep_invariant x y data [] []
    (by simp) (by simp)
    (by intro k; simp [groupOf])
  rw [List.nil_append] at h
  exact h

lemma key_of_accSpec {x y : String} {data : List Row} {k : String} {acc : GroupAcc}
    (hacc : accSpec? x y data k = some acc) :
    jsString acc.xVal = k := by
  cases hgc : groupOf data x k with
  | nil =>
    rw [accSpec?, hgc] at hacc
    exact absurd hacc (by simp)
  | cons r0 rest =>
    rw [accSpec?, hgc, Option.some.injEq] at hacc
    have hr0 : r0 ∈ groupOf data x k := by
      rw [hgc]
      exact List.mem_cons_self _ _
    have hpred := (List.mem_filter.mp hr0).2
    rw [← hacc]
    show jsString (rowGet r0 x) = k
    exact beq_iff_eq.mp hpred

lemma aggValue_eq_aggSpec {x y : String} {data : List Row} {k : String} {acc : GroupAcc}
    (agg : AggKind) (hacc : accSpec? x y data k = some acc) :
    aggValue agg acc = aggSpec agg (numericYs (groupOf data x k) y) := by
  cases hgc : groupOf data x k with
  | nil =>
    rw [accSpec?, hgc] at hacc
    exact absurd hacc (by simp)
  | cons r0 rest =>
    rw [accSpec?, hgc, Option.some.injEq] at hacc
    rw [← hacc]
    cases agg with
    | count => rfl
    | sum => rfl
    | avg => rfl
    | none => rfl
    | min =>
      show (minFold (numericYs (r0 :: rest) y)).getD 0 = _
      rw [minFold_eq_min?]
      rfl
    | max =>
      show (maxFold (numericYs (r0 :: rest) y)).getD 0 = _
      rw [maxFold_eq_max?]
      rfl

lemma rowGet_finalize_y (x ykey : String) (agg : AggKind) (p : String × GroupAcc)
    (hxy : x ≠ ykey) :
    rowGet (finalizeGroup x ykey agg p) ykey = .num (round2 (aggValue agg p.2)) := by
  unfold finalizeGroup rowGet
  rw [List.find?_cons_of_neg _ (by simpa using hxy), List.find?_cons_of_pos _ (by simp)]

lemma rowGet_finalize_x (x ykey : String) (agg : AggKind) (p : String × GroupAcc) :
    rowGet (finalizeGroup x ykey agg p) x = p.2.xVal := by
  unfold finalizeGroup rowGet
  rw [List.find?_cons_of_pos _ (by simp)]

/-- **C2, counterexample.**  A single row whose y value is the empty string:
the claim says such a row contributes to no statistic and in particular the
group's Count is 0.  In the code `Number('') = 0` is not NaN, so the row *is*
counted: the aggregated output carries `y = 1`, although the group contains no
row whose y value is numeric in the claim's sense (a number or a non-empty
numeric string). -/
theorem c2_counterexample :
    chartData ⟨"c2", "t", .bar, "x", .one "y", some .count⟩
        [[("x", Value.str "a"), ("y", Value.str "")]]
      = [[("x", Value.str "a"), ("y", Value.num 1)]]
      ∧ ([[("x", Value.str "a"), ("y", Value.str "")]] : List Row).countP
          (fun r => specNumericY (rowGet r "y")) = 0
      ∧ Value.num 1 ≠ Value.num 0 := by
  refine ⟨?_, by decide, by norm_num⟩
  show jsSortBy (cmpAgg "x")
      ((buildGroups "x" "y" [[("x", Value.str "a"), ("y", Value.str "")]]).map
        (finalizeGroup "x" "y" .count))
    = [[("x", Value.str "a"), ("y", Value.num 1)]]
  have hbg : buildGroups "x" "y" [[("x", Value.str "a"), ("y", Value.str "")]]
      = [("a", bump (initAcc (Value.str "a")) 0)] := rfl
  rw [hbg]
  show [finalizeGroup "x" "y" .count ("a", bump (initAcc (Value.str "a")) 0)]
    = [[("x", Value.str "a"), ("y", Value.num 1)]]
  unfold finalizeGroup bump initAcc aggValue
  norm_num [round2]

/-- **C2, amended.**  For every grouped chart (type not scatter, aggregation
one of count/sum/min/max) with distinct x and y keys, where the x key is
additionally none of the accumulator's literal field names `count`, `_sum`,
`_min`, `_max` (at those keys the JS object-literal collision makes the
output's x value the statistic itself — possibly `±Infinity` — so the
property below fails there): every output row's y value is the rounded
aggregate over the y values of its x-group *that coerce to numbers via
`Number` without NaN* — this includes actual numbers and numeric strings but
also `null` and the empty string (which coerce to 0); only `undefined` and
non-numeric strings are excluded.  In particular Count is the number of
coercible y observations, not the group's row count and not the claim's count
of strictly numeric values.  Moreover every x-group of the data is
represented in the output. -/
theorem c2_agg_over_coercible_ys (id ttl x y : String) (t : ChartType) (agg : AggKind)
    (data : List Row)
    (ht : t ≠ ChartType.scatter)
    (ha : agg = .count ∨ agg = .sum ∨ agg = .min ∨ agg = .max)
    (hxy : x ≠ y)
    (_hx : x ∉ (["count", "_sum", "_min", "_max"] : List String)) :
    (∀ row ∈ chartData ⟨id, ttl, t, x, .one y, some agg⟩ data,
        rowGet row y
          = .num (round2 (aggSpec agg
              (numericYs (groupOf data x (jsString (rowGet row x))) y))))
      ∧ (∀ r ∈ data, ∃ row ∈ chartData ⟨id, ttl, t, x, .one y, some agg⟩ data,
          jsString (rowGet row x) = jsString (rowGet r x)) := by
  have heq : chartData ⟨id, ttl, t, x, .one y, some agg⟩ data
      = jsSortBy (cmpAgg x) ((buildGroups x y data).map (finalizeGroup x y agg)) := by
    cases t <;>
      first
        | exact absurd rfl ht
        | rcases ha with h | h | h | h <;> subst h <;> rfl
  obtain ⟨hnd, hspec, hkeys⟩ := buildGroups_spec x y data
  constructor
  · intro row hrow
    rw [heq] at hrow
    have hmem := (jsSortBy_perm (cmpAgg x) _).mem_iff.mp hrow
    obtain ⟨p, hp, hfin⟩ := List.mem_map.mp hmem
    have hacc := hspec p hp
    have hxval : jsString p.2.xVal = p.1 := key_of_accSpec hacc
    have hy : rowGet row y = .num (round2 (aggValue agg p.2)) := by
      rw [← hfin]
      exact rowGet_finalize_y x y agg p hxy
    have hx : rowGet row x = p.2.xVal := by
      rw [← hfin]
      exact rowGet_finalize_x x y agg p
    rw [hy, hx, hxval, aggValue_eq_aggSpec agg hacc]
  · intro r hr
    have hg : groupOf data x (jsString (rowGet r x)) ≠ [] := by
      intro h
      have hmem : r ∈ groupOf data x (jsString (rowGet r x)) :=
        List.mem_filter.mpr ⟨hr, beq_self_eq_true _⟩
      rw [h] at hmem
      cases hmem
    obtain ⟨p, hp, hpk⟩ := (hkeys _).mpr hg
    refine ⟨finalizeGroup x y agg p, ?_, ?_⟩
    · rw [heq]
      exact (jsSortBy_perm (cmpAgg x) _).mem_iff.mpr (List.mem_map.mpr ⟨p, hp, rfl⟩)
    · rw [rowGet_finalize_x x y agg p, key_of_accSpec (hspec p hp), hpk]

/-- **C2, witness.** -/
theorem c2_agg_over_coercible_ys_witness :
    (∀ row ∈ chartData ⟨"w", "t", .bar, "x", .one "y", some AggKind.count⟩
        [[("x", Value.str "a"), ("y", Value.num 5)]],
        rowGet row "y"
          = .num (round2 (aggSpec AggKind.count
              (numericYs (groupOf [[("x", Value.str "a"), ("y", Value.num 5)]] "x"
                (jsString (rowGet row "x"))) "y"))))
      ∧ (∀ r ∈ ([[("x", Value.str "a"), ("y", Value.num 5)]] : List Row),
          ∃ row ∈ chartData ⟨"w", "t", .bar, "x", .one "y", some AggKind.count⟩
            [[("x", Value.str "a"), ("y", Value.num 5)]],
          jsString (rowGet row "x") = jsString (rowGet r "x")) :=
  c2_agg_over_coercible_ys "w" "t" "x" "y" .bar .count
    [[("x", Value.str "a"), ("y", Value.num 5)]]
    (by decide) (Or.inl rfl) (by decide) (by decide)

/-! ## Claim C1: conditional idempotence of the cleaning pipeline -/

lemma bool_eq_false {b : Bool} (h : ¬ b = true) : b = false := by
  cases b
  · rfl
  · exact absurd rfl h

lemma map_eq_self' {α : Type _} {f : α → α} :
    ∀ {l : List α}, (∀ a ∈ l, f a = a) → l.map f = l
  | [], _ => rfl
  | a :: l, h => by
    rw [List.map_cons, h a (List.mem_cons_self a l),
      map_eq_self' (fun b hb => h b (List.mem_cons_of_mem a hb))]

lemma map_congr'' {α β : Type _} {f g : α → β} :
    ∀ {l : List α}, (∀ a ∈ l, f a = g a) → l.map f = l.map g
  | [], _ => rfl
  | a :: l, h => by
    rw [List.map_cons, List.map_cons, h a (List.mem_cons_self a l),
      map_congr'' (fun b hb => h b (List.mem_cons_of_mem a hb))]

lemma foldl_eq_self {β : Type _} {f : Row → β → Row} :
    ∀ {l : List β} {r : Row}, (∀ b ∈ l, f r b = r) → l.foldl f r = r
  | [], _, _ => rfl
  | b :: l, r, h => by
    rw [List.foldl_cons, h b (List.mem_cons_self b l)]
    exact foldl_eq_self (fun b' hb => h b' (List.mem_cons_of_mem b hb))

lemma mem_of_contains' {s : String} : ∀ {l : List String}, l.contains s = true → s ∈ l
  | [], h => Bool.noConfusion h
  | a :: l, h => by
    rw [List.contains_cons] at h
    rcases Bool.or_eq_true_iff.mp h with h1 | h1
    · rw [beq_iff_eq.mp h1]
      exact List.mem_cons_self a l
    · exact List.mem_cons_of_mem a (mem_of_contains' h1)

lemma contains_of_mem' {s : String} : ∀ {l : List String}, s ∈ l → l.contains s = true
  | [], h => absurd h (List.not_mem_nil s)
  | a :: l, h => by
    rw [List.contains_cons]
    rcases List.mem_cons.mp h with rfl | hm
    · simp
    · rw [contains_of_mem' hm, Bool.or_true]

lemma stepOK_refl (r : Row) : StepOK r r := fun _ => Or.inl rfl

lemma stepOK_trans {r s t : Row} (h1 : StepOK r s) (h2 : StepOK s t) : StepOK r t := by
  intro c
  rcases h2 c with h | h
  · rw [h]
    exact h1 c
  · exact Or.inr h

lemma stepOK_rowSet (r : Row) (c : String) (q : ℚ) : StepOK r (rowSet r c (.num q)) := by
  intro c'
  rw [rowGet_rowSet]
  by_cases h : c' = c
  · rw [if_pos h]
    exact Or.inr ⟨q, rfl⟩
  · rw [if_neg h]
    exact Or.inl rfl

lemma stepOK_nonmissing {r r' : Row} {c : String} (hs : StepOK r r')
    (h : isMissingVal (rowGet r c) = false) : isMissingVal (rowGet r' c) = false := by
  rcases hs c with he | ⟨q, he⟩ <;> rw [he]
  · exact h
  · rfl

lemma stepOK_typeofNumber {r r' : Row} {c : String} (hs : StepOK r r')
    (h : typeofNumber (rowGet r c) = true) : typeofNumber (rowGet r' c) = true := by
  rcases hs c with he | ⟨q, he⟩ <;> rw [he]
  · exact h
  · rfl

lemma stepOK_rowComplete {cols : List String} {r r' : Row} (hs : StepOK r r')
    (h : rowComplete cols r = true) : rowComplete cols r' = true := by
  rw [rowComplete, List.all_eq_true] at h ⊢
  intro c hc
  have h2 := h c hc
  simp only [Bool.not_eq_true'] at h2 ⊢
  exact stepOK_nonmissing hs h2

lemma opFixed_stepOK {op : CleaningOperation} {r r' : Row} (hs : StepOK r r')
    (h : opFixed op r) : opFixed op r' := by
  intro ht
  have h2 := h ht
  cases htyp : op.type with
  | fill_missing_zero =>
    rw [htyp] at h2
    exact stepOK_nonmissing hs h2
  | convert_to_number =>
    rw [htyp] at h2
    exact stepOK_typeofNumber hs h2
  | remove_duplicates => trivial
  | remove_empty_rows => trivial
  | fill_missing_mean => trivial

lemma meanFixed_stepOK {op : CleaningOperation} {r r' : Row} (hs : StepOK r r')
    (h : meanFixed op r) : meanFixed op r' :=
  stepOK_nonmissing hs h

lemma rowSet_keysNodup {r : Row} (c : String) (v : Value) (h : keysNodup r) :
    keysNodup (rowSet r c v) := by
  unfold rowSet
  by_cases hany : r.any (fun p => p.1 == c) = true
  · rw [if_pos hany]
    unfold keysNodup at h ⊢
    have hmap : (r.map (fun p => if p.1 == c then (c, v) else p)).map Prod.fst
        = r.map Prod.fst := by
      rw [List.map_map]
      apply map_congr''
      intro p _
      by_cases hc : p.1 = c
      · simp [hc]
      · simp [hc]
    rw [hmap]
    exact h
  · rw [if_neg hany]
    unfold keysNodup at h ⊢
    rw [List.map_append]
    apply nodup_append_singleton h
    intro hmem
    obtain ⟨p, hp, hpc⟩ := List.mem_map.mp hmem
    exact hany (List.any_eq_true.mpr ⟨p, hp, by simpa using hpc⟩)

/-- Overwriting a cell with the value it already holds is the identity on a
genuine mapping (duplicate keys could break this; `keysNodup` rules them out). -/
lemma rowSet_eq_self {r : Row} {c : String} {v : Value}
    (hk : keysNodup r) (hv : rowGet r c = v) (hany : r.any (fun p => p.1 == c) = true) :
    rowSet r c v = r := by
  rw [rowSet, if_pos hany]
  induction r with
  | nil => simp at hany
  | cons p r ih =>
    by_cases hp : p.1 = c
    · have hpv : v = p.2 := by
        rw [rowGet, List.find?_cons_of_pos _ (by simpa using hp)] at hv
        exact hv.symm
      have hnotail : ∀ q ∈ r, q.1 ≠ c := by
        intro q hq hqc
        unfold keysNodup at hk
        rw [List.map_cons, List.nodup_cons] at hk
        exact hk.1 (List.mem_map.mpr ⟨q, hq, by rw [hqc, hp]⟩)
      rw [List.map_cons, if_pos (by simpa using hp)]
      congr 1
      · rw [hpv, ← hp]
      · apply map_eq_self'
        intro q hq
        rw [if_neg (by simpa using hnotail q hq)]
    · rw [List.map_cons, if_neg (by simpa using hp)]
      congr 1
      apply ih
      · unfold keysNodup at hk ⊢
        rw [List.map_cons, List.nodup_cons] at hk
        exact hk.2
      · rw [rowGet, List.find?_cons_of_neg _ (by simpa using hp)] at hv
        exact hv
      · rw [List.any_cons] at hany
        rcases Bool.or_eq_true_iff.mp hany with h1 | h1
        · exact absurd (by simpa using h1) hp
        · exact h1

lemma any_key_of_typeofNumber {r : Row} {c : String}
    (h : typeofNumber (rowGet r c) = true) : r.any (fun p => p.1 == c) = true := by
  by_contra hany
  have habs : ∀ p ∈ r, p.1 ≠ c := by
    intro p hp hc
    exact hany (List.any_eq_true.mpr ⟨p, hp, by simpa using hc⟩)
  rw [rowGet_eq_undef_of_absent habs] at h
  exact Bool.noConfusion h

lemma applyOp_stepOK (op : CleaningOperation) (r : Row) : StepOK r (applyOp op r) := by
  simp only [applyOp]
  by_cases ht : truthyColumn op = true
  · rw [if_pos ht]
    cases op.type with
    | fill_missing_zero =>
      by_cases hm : isMissingVal (rowGet r (colOf op)) = true
      · rw [if_pos hm]
        exact stepOK_rowSet r (colOf op) 0
      · rw [if_neg hm]
        exact stepOK_refl r
    | convert_to_number => exact stepOK_rowSet r (colOf op) _
    | remove_duplicates => exact stepOK_refl r
    | remove_empty_rows => exact stepOK_refl r
    | fill_missing_mean => exact stepOK_refl r
  · rw [if_neg ht]
    exact stepOK_refl r

lemma applyMean_stepOK (rows0 : List Row) (op : CleaningOperation) (r : Row) :
    StepOK r (applyMean rows0 op r) := by
  simp only [applyMean]
  by_cases hm : isMissingVal (rowGet r (colOf op)) = true
  · rw [if_pos hm]
    exact stepOK_rowSet r (colOf op) _
  · rw [if_neg hm]
    exact stepOK_refl r

lemma applyOp_keysNodup (op : CleaningOperation) {r : Row} (h : keysNodup r) :
    keysNodup (applyOp op r) := by
  simp only [applyOp]
  by_cases ht : truthyColumn op = true
  · rw [if_pos ht]
    cases op.type with
    | fill_missing_zero =>
      by_cases hm : isMissingVal (rowGet r (colOf op)) = true
      · rw [if_pos hm]
        exact rowSet_keysNodup _ _ h
      · rw [if_neg hm]
        exact h
    | convert_to_number => exact rowSet_keysNodup _ _ h
    | remove_duplicates => exact h
    | remove_empty_rows => exact h
    | fill_missing_mean => exact h
  · rw [if_neg ht]
    exact h

lemma applyMean_keysNodup (rows0 : List Row) (op : CleaningOperation) {r : Row}
    (h : keysNodup r) : keysNodup (applyMean rows0 op r) := by
  simp only [applyMean]
  by_cases hm : isMissingVal (rowGet r (colOf op)) = true
  · rw [if_pos hm]
    exact rowSet_keysNodup _ _ h
  · rw [if_neg hm]
    exact h

lemma applyOp_establishes (op : CleaningOperation) (r : Row) : opFixed op (applyOp op r) := by
  intro ht
  cases htyp : op.type with
  | fill_missing_zero =>
    simp only [applyOp, if_pos ht, htyp]
    by_cases hm : isMissingVal (rowGet r (colOf op)) = true
    · rw [if_pos hm, rowGet_rowSet_self]
      rfl
    · rw [if_neg hm]
      exact bool_eq_false hm
  | convert_to_number =>
    simp only [applyOp, if_pos ht, htyp, rowGet_rowSet_self]
    rfl
  | remove_duplicates => trivial
  | remove_empty_rows => trivial
  | fill_missing_mean => trivial

lemma applyMean_establishes (rows0 : List Row) (op : CleaningOperation) (r : Row) :
    meanFixed op (applyMean rows0 op r) := by
  show isMissingVal (rowGet (applyMean rows0 op r) (colOf op)) = false
  simp only [applyMean]
  by_cases hm : isMissingVal (rowGet r (colOf op)) = true
  · rw [if_pos hm, rowGet_rowSet_self]
    rfl
  · rw [if_neg hm]
    exact bool_eq_false hm

lemma applyOp_eq_self {op : CleaningOperation} {r : Row}
    (hk : keysNodup r) (hfix : opFixed op r) : applyOp op r = r := by
  simp only [applyOp]
  by_cases ht : truthyColumn op = true
  · rw [if_pos ht]
    have h2 := hfix ht
    cases htyp : op.type with
    | fill_missing_zero =>
      rw [htyp] at h2
      replace h2 : isMissingVal (rowGet r (colOf op)) = false := h2
      rw [if_neg (by simp [h2])]
    | convert_to_number =>
      rw [htyp] at h2
      replace h2 : typeofNumber (rowGet r (colOf op)) = true := h2
      obtain ⟨q, hq⟩ : ∃ q, rowGet r (colOf op) = .num q := by
        cases hv : rowGet r (colOf op) <;> rw [hv] at h2
        · exact ⟨_, rfl⟩
        · simp [typeofNumber] at h2
        · simp [typeofNumber] at h2
        · simp [typeofNumber] at h2
      have hq0 : toNumOr0 (rowGet r (colOf op)) = q := by
        rw [hq]
        rfl
      rw [hq0]
      exact rowSet_eq_self hk hq (any_key_of_typeofNumber h2)
    | remove_duplicates => rfl
    | remove_empty_rows => rfl
    | fill_missing_mean => rfl
  · rw [if_neg ht]

lemma applyMean_eq_self {rows0 : List Row} {op : CleaningOperation} {r : Row}
    (hfix : meanFixed op r) : applyMean rows0 op r = r := by
  have h : isMissingVal (rowGet r (colOf op)) = false := hfix
  simp only [applyMean]
  rw [if_neg (by simp [h])]

lemma foldl_stepOK {f : Row → CleaningOperation → Row}
    (hf : ∀ (r : Row) (op : CleaningOperation), StepOK r (f r op)) :
    ∀ (l : List CleaningOperation) (r : Row), StepOK r (l.foldl f r)
  | [], r => stepOK_refl r
  | op :: l, r => stepOK_trans (hf r op) (foldl_stepOK hf l (f r op))

lemma foldl_keysNodup {f : Row → CleaningOperation → Row}
    (hf : ∀ (r : Row) (op : CleaningOperation), keysNodup r → keysNodup (f r op)) :
    ∀ (l : List CleaningOperation) {r : Row}, keysNodup r → keysNodup (l.foldl f r)
  | [], _, h => h
  | op :: l, r, h => foldl_keysNodup hf l (hf r op h)

/-- After the phase-3 fold every operation of the list sees its fixed point:
its effect has been applied and no later step undoes it. -/
lemma foldl_applyOp_fixed :
    ∀ (l : List CleaningOperation) (r : Row) (op : CleaningOperation), op ∈ l →
      opFixed op (l.foldl (fun nr o => applyOp o nr) r)
  | [], _, op, h => absurd h (List.not_mem_nil op)
  | o :: l, r, op, h => by
    rw [List.foldl_cons]
    rcases List.mem_cons.mp h with rfl | hmem
    · exact opFixed_stepOK
        (foldl_stepOK (fun r' o' => applyOp_stepOK o' r') l (applyOp op r))
        (applyOp_establishes op r)
    · exact foldl_applyOp_fixed l (applyOp o r) op hmem

/-- After the phase-4 fold every mean-fill operation of the list sees a
non-missing target column. -/
lemma foldl_applyMean_fixed (rows0 : List Row) :
    ∀ (l : List CleaningOperation) (r : Row) (op : CleaningOperation), op ∈ l →
      meanFixed op (l.foldl (fun nr o => applyMean rows0 o nr) r)
  | [], _, op, h => absurd h (List.not_mem_nil op)
  | o :: l, r, op, h => by
    rw [List.foldl_cons]
    rcases List.mem_cons.mp h with rfl | hmem
    · exact meanFixed_stepOK
        (foldl_stepOK (fun r' o' => applyMean_stepOK rows0 o' r') l (applyMean rows0 op r))
        (applyMean_establishes rows0 op r)
    · exact foldl_applyMean_fixed rows0 l (applyMean rows0 o r) op hmem

lemma dedupeGo_sublist (l : List Row) : ∀ seen : List String, (dedupeGo seen l).Sublist l := by
  induction l with
  | nil =>
    intro seen
    exact List.Sublist.refl _
  | cons r rs ih =>
    intro seen
    simp only [dedupeGo]
    by_cases h : seen.contains (sigOfRow r) = true
    · rw [if_pos h]
      exact List.Sublist.cons r (ih seen)
    · rw [if_neg h]
      exact List.Sublist.cons₂ r (ih _)

/-- The seen-set loop emits rows with pairwise distinct signatures, none of
them already in the seen set. -/
lemma dedupeGo_sigs_nodup (l : List Row) : ∀ seen : List String,
    ((dedupeGo seen l).map sigOfRow).Nodup ∧ ∀ r ∈ dedupeGo seen l, sigOfRow r ∉ seen := by
  induction l with
  | nil =>
    intro seen
    exact ⟨List.nodup_nil, fun r hr => absurd hr (List.not_mem_nil r)⟩
  | cons r rs ih =>
    intro seen
    simp only [dedupeGo]
    by_cases h : seen.contains (sigOfRow r) = true
    · rw [if_pos h]
      exact ih seen
    · rw [if_neg h]
      obtain ⟨h1, h2⟩ := ih (sigOfRow r :: seen)
      constructor
      · rw [List.map_cons, List.nodup_cons]
        refine ⟨?_, h1⟩
        intro hmem
        obtain ⟨r', hr', hs⟩ := List.mem_map.mp hmem
        exact h2 r' hr' (by rw [hs]; exact List.mem_cons_self _ _)
      · intro r' hr'
        rcases List.mem_cons.mp hr' with rfl | hmem
        · intro hin
          exact h (contains_of_mem' hin)
        · exact fun hin => h2 r' hmem (List.mem_cons_of_mem _ hin)

lemma dedupeGo_eq_self (l : List Row) : ∀ seen : List String,
    (l.map sigOfRow).Nodup → (∀ r ∈ l, sigOfRow r ∉ seen) → dedupeGo seen l = l := by
  induction l with
  | nil =>
    intro seen _ _
    rfl
  | cons r rs ih =>
    intro seen hnd hni
    simp only [dedupeGo]
    rw [if_neg]
    · congr 1
      apply ih
      · rw [List.map_cons, List.nodup_cons] at hnd
        exact hnd.2
      · intro r' hr' hin
        rcases List.mem_cons.mp hin with heq | hmem
        · rw [List.map_cons, List.nodup_cons] at hnd
          exact hnd.1 (by rw [← heq]; exact List.mem_map.mpr ⟨r', hr', rfl⟩)
        · exact hni r' (List.mem_cons_of_mem r hr') hmem
    · intro hcon
      exact hni r (List.mem_cons_self r rs) (mem_of_contains' hcon)

lemma dedupe_sigs_nodup (l : List Row) : ((dedupe l).map sigOfRow).Nodup :=
  (dedupeGo_sigs_nodup l []).1

lemma dedupe_of_sigs_nodup {l : List Row} (h : (l.map sigOfRow).Nodup) : dedupe l = l :=
  dedupeGo_eq_self l [] h (fun _ _ => List.not_mem_nil _)

/-- `cleanDataset` written with its four phases named. -/
lemma cleanDataset_eq' (data : List Row) (cols : List String)
    (ops : List CleaningOperation) :
    cleanDataset data cols ops
      = phase4 (activeOps ops) (phase3 (activeOps ops)
          (dropEmptyIf (activeOps ops) cols (dedupeIf (activeOps ops) data))) := rfl

lemma dedupeIf_of_none {aops : List CleaningOperation}
    (h : aops.any (fun op => op.type == .remove_duplicates) = false) (data : List Row) :
    dedupeIf aops data = data := by
  simp only [dedupeIf]
  rw [if_neg (by simp [h])]

lemma dedupeIf_eq_dedupe {aops : List CleaningOperation}
    (h : aops.any (fun op => op.type == .remove_duplicates) = true) (data : List Row) :
    dedupeIf aops data = dedupe data := by
  simp only [dedupeIf]
  rw [if_pos h]

lemma dropEmptyIf_mem {aops : List CleaningOperation} {cols : List String}
    {data : List Row} {r : Row} (h : r ∈ dropEmptyIf aops cols data) : r ∈ data := by
  simp only [dropEmptyIf] at h
  by_cases he : aops.any (fun op => op.type == .remove_empty_rows) = true
  · rw [if_pos he] at h
    exact (List.mem_filter.mp h).1
  · rw [if_neg he] at h
    exact h

lemma dropEmptyIf_complete {aops : List CleaningOperation} {cols : List String}
    {data : List Row} (he : aops.any (fun op => op.type == .remove_empty_rows) = true) :
    ∀ r ∈ dropEmptyIf aops cols data, rowComplete cols r = true := by
  intro r h
  simp only [dropEmptyIf] at h
  rw [if_pos he] at h
  exact (List.mem_filter.mp h).2

lemma dropEmptyIf_sublist (aops : List CleaningOperation) (cols : List String)
    (data : List Row) : (dropEmptyIf aops cols data).Sublist data := by
  simp only [dropEmptyIf]
  by_cases he : aops.any (fun op => op.type == .remove_empty_rows) = true
  · rw [if_pos he]
    exact List.filter_sublist _
  · rw [if_neg he]

lemma dropEmptyIf_eq_self {aops : List CleaningOperation} {cols : List String}
    {data : List Row}
    (h : aops.any (fun op => op.type == .remove_empty_rows) = true →
        ∀ r ∈ data, rowComplete cols r = true) :
    dropEmptyIf aops cols data = data := by
  simp only [dropEmptyIf]
  by_cases he : aops.any (fun op => op.type == .remove_empty_rows) = true
  · rw [if_pos he]
    exact List.filter_eq_self.mpr (h he)
  · rw [if_neg he]

lemma phase3_mem_step {aops : List CleaningOperation} {rows : List Row} {r : Row}
    (h : r ∈ phase3 aops rows) :
    ∃ r0 ∈ rows, StepOK r0 r ∧ (keysNodup r0 → keysNodup r) := by
  simp only [phase3] at h
  by_cases hg : aops.any truthyColumn = true
  · rw [if_pos hg] at h
    obtain ⟨r0, hr0, he⟩ := List.mem_map.mp h
    replace he : aops.foldl (fun nr op => applyOp op nr) r0 = r := he
    subst he
    exact ⟨r0, hr0, foldl_stepOK (fun r' o => applyOp_stepOK o r') aops r0,
      foldl_keysNodup (fun r' o => applyOp_keysNodup o) aops⟩
  · rw [if_neg hg] at h
    exact ⟨r, h, stepOK_refl r, id⟩

lemma phase4_mem_step {aops : List CleaningOperation} {rows : List Row} {r : Row}
    (h : r ∈ phase4 aops rows) :
    ∃ r0 ∈ rows, StepOK r0 r ∧ (keysNodup r0 → keysNodup r) := by
  simp only [phase4] at h
  by_cases hm : (aops.filter isMeanOp).isEmpty = true
  · rw [if_pos hm] at h
    exact ⟨r, h, stepOK_refl r, id⟩
  · rw [if_neg hm] at h
    obtain ⟨r0, hr0, he⟩ := List.mem_map.mp h
    replace he : (aops.filter isMeanOp).foldl (fun nr op => applyMean rows op nr) r0 = r := he
    subst he
    exact ⟨r0, hr0, foldl_stepOK (fun r' o => applyMean_stepOK rows o r') _ r0,
      foldl_keysNodup (fun r' o => applyMean_keysNodup rows o) _⟩

lemma phase3_fixed {aops : List CleaningOperation} {rows : List Row}
    (hg : aops.any truthyColumn = true) :
    ∀ r ∈ phase3 aops rows, ∀ op ∈ aops, opFixed op r := by
  intro r h op hop
  simp only [phase3, if_pos hg] at h
  obtain ⟨r0, hr0, he⟩ := List.mem_map.mp h
  replace he : aops.foldl (fun nr o => applyOp o nr) r0 = r := he
  subst he
  exact foldl_applyOp_fixed aops r0 op hop

lemma phase4_fixed {aops : List CleaningOperation} {rows : List Row}
    (hm : (aops.filter isMeanOp).isEmpty = false) :
    ∀ r ∈ phase4 aops rows, ∀ op ∈ aops.filter isMeanOp, meanFixed op r := by
  intro r h op hop
  simp only [phase4] at h
  rw [if_neg (by simp [hm])] at h
  obtain ⟨r0, hr0, he⟩ := List.mem_map.mp h
  replace he : (aops.filter isMeanOp).foldl (fun nr o => applyMean rows o nr) r0 = r := he
  subst he
  exact foldl_applyMean_fixed rows _ r0 op hop

lemma phase3_id_of_structural {aops : List CleaningOperation}
    (h : ∀ op ∈ aops, op.type = .remove_duplicates ∨ op.type = .remove_empty_rows)
    (rows : List Row) : phase3 aops rows = rows := by
  simp only [phase3]
  by_cases hg : aops.any truthyColumn = true
  · rw [if_pos hg]
    apply map_eq_self'
    intro r _
    apply foldl_eq_self
    intro op hop
    have htypes : op.type ≠ .fill_missing_zero ∧ op.type ≠ .convert_to_number := by
      rcases h op hop with h1 | h1 <;> rw [h1] <;> exact ⟨by simp, by simp⟩
    simp only [applyOp]
    by_cases ht : truthyColumn op = true
    · rw [if_pos ht]
      cases htyp : op.type with
      | fill_missing_zero => exact absurd htyp htypes.1
      | convert_to_number => exact absurd htyp htypes.2
      | remove_duplicates => rfl
      | remove_empty_rows => rfl
      | fill_missing_mean => rfl
    · rw [if_neg ht]
  · rw [if_neg hg]

lemma phase4_id_of_structural {aops : List CleaningOperation}
    (h : ∀ op ∈ aops, op.type = .remove_duplicates ∨ op.type = .remove_empty_rows)
    (rows : List Row) : phase4 aops rows = rows := by
  have hm : aops.filter isMeanOp = [] := by
    rw [List.filter_eq_nil_iff]
    intro op hop
    rcases h op hop with h1 | h1 <;> simp [isMeanOp, h1]
  simp only [phase4, hm]
  rfl

lemma dedupeIf_idem_after (aops : List CleaningOperation) (cols : List String)
    (D : List Row) :
    dedupeIf aops (dropEmptyIf aops cols (dedupeIf aops D))
      = dropEmptyIf aops cols (dedupeIf aops D) := by
  by_cases hd : aops.any (fun op => op.type == .remove_duplicates) = true
  · have h1 : ((dedupeIf aops D).map sigOfRow).Nodup := by
      rw [dedupeIf_eq_dedupe hd]
      exact dedupe_sigs_nodup D
    have hsig : ((dropEmptyIf aops cols (dedupeIf aops D)).map sigOfRow).Nodup :=
      h1.sublist ((dropEmptyIf_sublist aops cols (dedupeIf aops D)).map sigOfRow)
    rw [dedupeIf_eq_dedupe hd]
    exact dedupe_of_sigs_nodup hsig
  · exact dedupeIf_of_none (bool_eq_false hd) _

/-- **C1, amended.**  The pipeline is idempotent when re-running cannot merge
rows that the first run made equal: either no `remove_duplicates` operation is
enabled (any mix of drop-empty, zero-fill, conversion and mean-fill), or every
enabled operation is `remove_duplicates`/`remove_empty_rows`.  When an enabled
`remove_duplicates` coexists with an enabled column operation, idempotence can
fail (see the counterexample): filling or converting can make two surviving
rows identical, and the second run's dedup then removes one.  The row-key
hypothesis says each input row is a genuine JS object (no duplicate property
names). -/
theorem c1_conditional_idempotence (D : List Row) (cols : List String)
    (ops : List CleaningOperation)
    (hkeys : ∀ r ∈ D, keysNodup r)
    (hsep : (∀ op ∈ activeOps ops, op.type ≠ .remove_duplicates)
        ∨ (∀ op ∈ activeOps ops, op.type = .remove_duplicates
            ∨ op.type = .remove_empty_rows)) :
    cleanDataset (cleanDataset D cols ops) cols ops = cleanDataset D cols ops := by
  rcases hsep with hnd | hstruct
  · -- no enabled remove_duplicates: the filled/converted cells stay put
    have hdupF : (activeOps ops).any (fun op => op.type == .remove_duplicates) = false := by
      apply bool_eq_false
      intro hc
      obtain ⟨op, hop, hbeq⟩ := List.any_eq_true.mp hc
      exact hnd op hop (beq_iff_eq.mp hbeq)
    have hXeq : cleanDataset D cols ops
        = phase4 (activeOps ops) (phase3 (activeOps ops)
            (dropEmptyIf (activeOps ops) cols D)) := by
      rw [cleanDataset_eq', dedupeIf_of_none hdupF]
    have hinv : ∀ r ∈ cleanDataset D cols ops,
        keysNodup r
          ∧ ((activeOps ops).any (fun op => op.type == .remove_empty_rows) = true →
              rowComplete cols r = true) := by
      intro r hr
      rw [hXeq] at hr
      obtain ⟨r3, hr3, hs43, hk43⟩ := phase4_mem_step hr
      obtain ⟨r2, hr2, hs32, hk32⟩ := phase3_mem_step hr3
      have hr2D : r2 ∈ D := dropEmptyIf_mem hr2
      refine ⟨hk43 (hk32 (hkeys r2 hr2D)), fun he => ?_⟩
      exact stepOK_rowComplete hs43 (stepOK_rowComplete hs32 (dropEmptyIf_complete he r2 hr2))
    have hfix : (activeOps ops).any truthyColumn = true →
        ∀ r ∈ cleanDataset D cols ops, ∀ op ∈ activeOps ops, opFixed op r := by
      intro hg r hr op hop
      rw [hXeq] at hr
      obtain ⟨r3, hr3, hs43, _⟩ := phase4_mem_step hr
      exact opFixed_stepOK hs43 (phase3_fixed hg r3 hr3 op hop)
    have hmfix : ((activeOps ops).filter isMeanOp).isEmpty = false →
        ∀ r ∈ cleanDataset D cols ops, ∀ op ∈ (activeOps ops).filter isMeanOp,
          meanFixed op r := by
      intro hm r hr op hop
      rw [hXeq] at hr
      exact phase4_fixed hm r hr op hop
    rw [cleanDataset_eq' (cleanDataset D cols ops), dedupeIf_of_none hdupF,
      dropEmptyIf_eq_self (fun he r hr => (hinv r hr).2 he)]
    have hp3 : phase3 (activeOps ops) (cleanDataset D cols ops) = cleanDataset D cols ops := by
      simp only [phase3]
      by_cases hg : (activeOps ops).any truthyColumn = true
      · rw [if_pos hg]
        apply map_eq_self'
        intro r hr
        apply foldl_eq_self
        intro op hop
        exact applyOp_eq_self (hinv r hr).1 (hfix hg r hr op hop)
      · rw [if_neg hg]
    rw [hp3]
    simp only [phase4]
    by_cases hm : ((activeOps ops).filter isMeanOp).isEmpty = true
    · rw [if_pos hm]
    · rw [if_neg hm]
      apply map_eq_self'
      intro r hr
      apply foldl_eq_self
      intro op hop
      exact applyMean_eq_self (hmfix (bool_eq_false hm) r hr op hop)
  · -- only structural operations enabled: two filters, both idempotent
    have hp34 : ∀ rows : List Row,
        phase4 (activeOps ops) (phase3 (activeOps ops) rows) = rows := by
      intro rows
      rw [phase3_id_of_structural hstruct, phase4_id_of_structural hstruct]
    rw [cleanDataset_eq' (cleanDataset D cols ops), cleanDataset_eq' D, hp34, hp34,
      dedupeIf_idem_after]
    apply dropEmptyIf_eq_self
    intro he r hr
    exact dropEmptyIf_complete he r hr

/-- **C1, witness.** -/
theorem c1_conditional_idempotence_witness :
    cleanDataset
        (cleanDataset [[("A", Value.str "")]] ["A"]
          [⟨.fill_missing_zero, some "A", "Fill missing values with 0", true⟩]) ["A"]
        [⟨.fill_missing_zero, some "A", "Fill missing values with 0", true⟩]
      = cleanDataset [[("A", Value.str "")]] ["A"]
          [⟨.fill_missing_zero, some "A", "Fill missing values with 0", true⟩] :=
  c1_conditional_idempotence [[("A", Value.str "")]] ["A"]
    [⟨.fill_missing_zero, some "A", "Fill missing values with 0", true⟩]
    (by
      intro r hr
      rw [List.mem_singleton] at hr
      subst hr
      simp [keysNodup])
    (Or.inl (by decide))

/-! ## Claim C3: phase structure and operation-order irrelevance -/

lemma rowEquiv_refl (r : Row) : RowEquiv r r := fun _ => rfl

lemma rowEquiv_trans {a b c : Row} (h1 : RowEquiv a b) (h2 : RowEquiv b c) :
    RowEquiv a c := fun col => (h1 col).trans (h2 col)

lemma rowsEquiv_refl (l : List Row) : RowsEquiv l l :=
  List.forall₂_same.mpr (fun r _ => rowEquiv_refl r)

lemma rowsEquiv_map {l l' : List Row} {f g : Row → Row} (h : RowsEquiv l l')
    (hfg : ∀ {a b : Row}, RowEquiv a b → RowEquiv (f a) (g b)) :
    RowsEquiv (l.map f) (l'.map g) := by
  induction h with
  | nil => exact List.Forall₂.nil
  | cons hr _ ih => exact List.Forall₂.cons (hfg hr) ih

lemma toNumOr0_of_missing {v : Value} (h : isMissingVal v = true) : toNumOr0 v = 0 := by
  cases v with
  | null => rfl
  | undefined => rfl
  | str s =>
    have hs : s = "" := by simpa [isMissingVal] using h
    subst hs
    rfl
  | num q => simp [isMissingVal] at h

/-- Zero-fill and number conversion commute on a single cell. -/
lemma opEffect_comm (op1 op2 : CleaningOperation) (v : Value) :
    opEffect op1 (opEffect op2 v) = opEffect op2 (opEffect op1 v) := by
  simp only [opEffect]
  cases h1 : op1.type <;> cases h2 : op2.type <;> try rfl
  · show (if isMissingVal (Value.num (toNumOr0 v)) = true then Value.num 0
        else Value.num (toNumOr0 v))
      = Value.num (toNumOr0 (if isMissingVal v = true then Value.num 0 else v))
    rw [if_neg (by simp [isMissingVal])]
    by_cases hm : isMissingVal v = true
    · rw [if_pos hm, toNumOr0_of_missing hm]
      rfl
    · rw [if_neg hm]
  · show Value.num (toNumOr0 (if isMissingVal v = true then Value.num 0 else v))
      = (if isMissingVal (Value.num (toNumOr0 v)) = true then Value.num 0
        else Value.num (toNumOr0 v))
    by_cases hm : isMissingVal v = true
    · rw [if_pos hm, toNumOr0_of_missing hm]
      rfl
    · rw [if_neg hm, if_neg (by simp [isMissingVal])]

/-- Pointwise description of a phase-3 step: on its own (truthy) column the
operation applies its cell effect, everywhere else the row is untouched. -/
lemma rowGet_applyOp (op : CleaningOperation) (r : Row) (c : String) :
    rowGet (applyOp op r) c
      = if truthyColumn op = true ∧ c = colOf op then opEffect op (rowGet r (colOf op))
        else rowGet r c := by
  by_cases ht : truthyColumn op = true
  · cases htyp : op.type with
    | fill_missing_zero =>
      have hL : applyOp op r
          = if isMissingVal (rowGet r (colOf op)) = true
            then rowSet r (colOf op) (Value.num 0) else r := by
        simp only [applyOp, ht, htyp]
        rw [if_pos trivial]
      have hR : opEffect op (rowGet r (colOf op))
          = if isMissingVal (rowGet r (colOf op)) = true
            then Value.num 0 else rowGet r (colOf op) := by
        simp only [opEffect, htyp]
      rw [hL, hR]
      by_cases hm : isMissingVal (rowGet r (colOf op)) = true
      · rw [if_pos hm, if_pos hm]
        by_cases hc : c = colOf op
        · rw [if_pos (And.intro ht hc), hc, rowGet_rowSet_self]
        · rw [if_neg (fun hand => hc hand.2), rowGet_rowSet_ne r _ hc]
      · rw [if_neg hm, if_neg hm]
        by_cases hc : c = colOf op
        · rw [if_pos (And.intro ht hc), hc]
        · rw [if_neg (fun hand => hc hand.2)]
    | convert_to_number =>
      have hL : applyOp op r
          = rowSet r (colOf op) (Value.num (toNumOr0 (rowGet r (colOf op)))) := by
        simp only [applyOp, ht, htyp]
        rw [if_pos trivial]
      have hR : opEffect op (rowGet r (colOf op))
          = Value.num (toNumOr0 (rowGet r (colOf op))) := by
        simp only [opEffect, htyp]
      rw [hL, hR]
      by_cases hc : c = colOf op
      · rw [if_pos (And.intro ht hc), hc, rowGet_rowSet_self]
      · rw [if_neg (fun hand => hc hand.2), rowGet_rowSet_ne r _ hc]
    | remove_duplicates =>
      have hL : applyOp op r = r := by
        simp only [applyOp, ht, htyp]
        rw [if_pos trivial]
      have hR : opEffect op (rowGet r (colOf op)) = rowGet r (colOf op) := by
        simp only [opEffect, htyp]
      rw [hL, hR]
      by_cases hc : c = colOf op
      · rw [if_pos (And.intro ht hc), hc]
      · rw [if_neg (fun hand => hc hand.2)]
    | remove_empty_rows =>
      have hL : applyOp op r = r := by
        simp only [applyOp, ht, htyp]
        rw [if_pos trivial]
      have hR : opEffect op (rowGet r (colOf op)) = rowGet r (colOf op) := by
        simp only [opEffect, htyp]
      rw [hL, hR]
      by_cases hc : c = colOf op
      · rw [if_pos (And.intro ht hc), hc]
      · rw [if_neg (fun hand => hc hand.2)]
    | fill_missing_mean =>
      have hL : applyOp op r = r := by
        simp only [applyOp, ht, htyp]
        rw [if_pos trivial]
      have hR : opEffect op (rowGet r (colOf op)) = rowGet r (colOf op) := by
        simp only [opEffect, htyp]
      rw [hL, hR]
      by_cases hc : c = colOf op
      · rw [if_pos (And.intro ht hc), hc]
      · rw [if_neg (fun hand => hc hand.2)]
  · have hL : applyOp op r = r := by
      simp only [applyOp]
      rw [if_neg ht]
    rw [hL, if_neg (fun hand => ht hand.1)]

lemma applyOp_respects (op : CleaningOperation) {r r' : Row} (h : RowEquiv r r') :
    RowEquiv (applyOp op r) (applyOp op r') := by
  intro c
  rw [rowGet_applyOp, rowGet_applyOp, h c, h (colOf op)]

lemma applyOp_comm (op1 op2 : CleaningOperation) (r : Row) :
    RowEquiv (applyOp op2 (applyOp op1 r)) (applyOp op1 (applyOp op2 r)) := by
  intro c
  simp only [rowGet_applyOp]
  by_cases hT1 : truthyColumn op1 = true <;> by_cases hT2 : truthyColumn op2 = true <;>
    by_cases hc1 : c = colOf op1 <;> by_cases hc2 : c = colOf op2 <;>
    by_cases hcc : colOf op1 = colOf op2 <;>
    first
      | (simp [hT1, hT2, hc1, hc2, hcc, opEffect_comm]
         done)
      | (have hcc2 : ¬colOf op2 = colOf op1 := fun hx => hcc hx.symm
         simp [hT1, hT2, hc1, hc2, hcc, hcc2, opEffect_comm])

/-- Pointwise description of a phase-4 step. -/
lemma rowGet_applyMean (rows0 : List Row) (op : CleaningOperation) (r : Row) (c : String) :
    rowGet (applyMean rows0 op r) c
      = if c = colOf op ∧ isMissingVal (rowGet r (colOf op)) = true
        then Value.num (round2 (meanOf rows0 (colOf op))) else rowGet r c := by
  simp only [applyMean]
  by_cases hm : isMissingVal (rowGet r (colOf op)) = true
  · rw [if_pos hm]
    by_cases hc : c = colOf op
    · rw [if_pos (And.intro hc hm), hc, rowGet_rowSet_self]
    · rw [if_neg (fun hand => hc hand.1), rowGet_rowSet_ne r _ hc]
  · rw [if_neg hm, if_neg (fun hand => hm hand.2)]

lemma applyMean_respects (rows0 : List Row) (op : CleaningOperation) {r r' : Row}
    (h : RowEquiv r r') : RowEquiv (applyMean rows0 op r) (applyMean rows0 op r') := by
  intro c
  rw [rowGet_applyMean, rowGet_applyMean, h c, h (colOf op)]

lemma applyMean_comm (rows0 : List Row) (op1 op2 : CleaningOperation) (r : Row) :
    RowEquiv (applyMean rows0 op2 (applyMean rows0 op1 r))
      (applyMean rows0 op1 (applyMean rows0 op2 r)) := by
  intro c
  simp only [rowGet_applyMean]
  by_cases hc1 : c = colOf op1 <;> by_cases hc2 : c = colOf op2 <;>
    by_cases hcc : colOf op1 = colOf op2 <;>
    by_cases hm1 : isMissingVal (rowGet r (colOf op1)) = true <;>
    by_cases hm2 : isMissingVal (rowGet r (colOf op2)) = true <;>
    first
      | (simp [hc1, hc2, hcc, hm1, hm2, isMissingVal]
         done)
      | (have hcc2 : ¬colOf op2 = colOf op1 := fun hx => hcc hx.symm
         simp [hc1, hc2, hcc, hcc2, hm1, hm2, isMissingVal])

lemma foldl_congr_rowEquiv {f : Row → CleaningOperation → Row}
    (hresp : ∀ (op : CleaningOperation) {r r' : Row},
      RowEquiv r r' → RowEquiv (f r op) (f r' op)) :
    ∀ (l : List CleaningOperation) {r r' : Row},
      RowEquiv r r' → RowEquiv (l.foldl f r) (l.foldl f r')
  | [], _, _, h => h
  | op :: l, _, _, h => foldl_congr_rowEquiv hresp l (hresp op h)

/-- Folding pairwise-commuting steps over a permuted operation list gives an
extensionally equal row. -/
lemma foldl_perm_rowEquiv {f : Row → CleaningOperation → Row}
    (hresp : ∀ (op : CleaningOperation) {r r' : Row},
      RowEquiv r r' → RowEquiv (f r op) (f r' op))
    (hcomm : ∀ (op1 op2 : CleaningOperation) (r : Row),
      RowEquiv (f (f r op1) op2) (f (f r op2) op1))
    {l l' : List CleaningOperation} (hp : l.Perm l') :
    ∀ r : Row, RowEquiv (l.foldl f r) (l'.foldl f r) := by
  induction hp with
  | nil =>
    intro r
    exact rowEquiv_refl r
  | cons x _ ih =>
    intro r
    rw [List.foldl_cons, List.foldl_cons]
    exact ih (f r x)
  | swap x y l =>
    intro r
    rw [List.foldl_cons, List.foldl_cons, List.foldl_cons, List.foldl_cons]
    exact foldl_congr_rowEquiv hresp l (hcomm y x r)
  | trans _ _ ih1 ih2 =>
    intro r
    exact rowEquiv_trans (ih1 r) (ih2 r)

lemma perm_any_eq {α : Type _} {l l' : List α} (h : l.Perm l') (p : α → Bool) :
    l.any p = l'.any p := by
  cases ha : l.any p
  · apply Eq.symm
    apply bool_eq_false
    intro hc
    obtain ⟨a, hmem, hpa⟩ := List.any_eq_true.mp hc
    have := List.any_eq_true.mpr ⟨a, h.mem_iff.mpr hmem, hpa⟩
    rw [ha] at this
    exact Bool.noConfusion this
  · obtain ⟨a, hmem, hpa⟩ := List.any_eq_true.mp ha
    exact (List.any_eq_true.mpr ⟨a, h.mem_iff.mp hmem, hpa⟩).symm

lemma perm_isEmpty_eq {α : Type _} {l l' : List α} (h : l.Perm l') :
    l.isEmpty = l'.isEmpty := by
  have hlen := h.length_eq
  cases l <;> cases l' <;> simp_all

lemma foldl_congr_fn {f g : Row → CleaningOperation → Row}
    (h : ∀ (r : Row) (op : CleaningOperation), f r op = g r op) :
    ∀ (l : List CleaningOperation) (r : Row), l.foldl f r = l.foldl g r
  | [], _ => rfl
  | op :: l, r => by
    rw [List.foldl_cons, List.foldl_cons, h r op]
    exact foldl_congr_fn h l (g r op)

lemma numericValues_congr {l l' : List Row} (h : RowsEquiv l l') (c : String) :
    numericValues l c = numericValues l' c := by
  induction h with
  | nil => rfl
  | @cons a b l1 l2 hr _ ih =>
    show numericValues (a :: l1) c = numericValues (b :: l2) c
    simp only [numericValues, List.filterMap_cons]
    rw [hr c]
    simp only [numericValues] at ih
    rw [ih]

lemma meanOf_congr {l l' : List Row} (h : RowsEquiv l l') (c : String) :
    meanOf l c = meanOf l' c := by
  simp only [meanOf, numericValues_congr h c]

lemma applyMean_congr {rows0 rows0' : List Row} (h : RowsEquiv rows0 rows0')
    (op : CleaningOperation) (r : Row) : applyMean rows0 op r = applyMean rows0' op r := by
  simp only [applyMean, meanOf_congr h]

lemma rowsEquiv_symm {l l' : List Row} (h : RowsEquiv l l') : RowsEquiv l' l := by
  induction h with
  | nil => exact List.Forall₂.nil
  | cons hr _ ih => exact List.Forall₂.cons (fun c => (hr c).symm) ih

lemma phase3_perm_equiv {aops aops' : List CleaningOperation} (hp : aops.Perm aops')
    (rows : List Row) : RowsEquiv (phase3 aops rows) (phase3 aops' rows) := by
  simp only [phase3]
  rw [perm_any_eq hp truthyColumn]
  by_cases hg : aops'.any truthyColumn = true
  · rw [if_pos hg, if_pos hg]
    apply rowsEquiv_map (rowsEquiv_refl rows)
    intro a b hab
    exact rowEquiv_trans
      (foldl_congr_rowEquiv (fun op => applyOp_respects op) aops hab)
      (foldl_perm_rowEquiv (fun op => applyOp_respects op)
        (fun o1 o2 r => applyOp_comm o1 o2 r) hp b)
  · rw [if_neg hg, if_neg hg]
    exact rowsEquiv_refl rows

lemma phase4_perm_equiv {aops aops' : List CleaningOperation} (hp : aops.Perm aops')
    {rows rows' : List Row} (h : RowsEquiv rows rows') :
    RowsEquiv (phase4 aops rows) (phase4 aops' rows') := by
  have hmp : (aops.filter isMeanOp).Perm (aops'.filter isMeanOp) := hp.filter _
  simp only [phase4]
  rw [perm_isEmpty_eq hmp]
  by_cases hm : (aops'.filter isMeanOp).isEmpty = true
  · rw [if_pos hm, if_pos hm]
    exact h
  · rw [if_neg hm, if_neg hm]
    apply rowsEquiv_map h
    intro a b hab
    have hcongr : ∀ (l : List CleaningOperation) (r : Row),
        l.foldl (fun nr op => applyMean rows' op nr) r
          = l.foldl (fun nr op => applyMean rows op nr) r :=
      foldl_congr_fn (fun r op => applyMean_congr (rowsEquiv_symm h) op r)
    have h1 : RowEquiv ((aops.filter isMeanOp).foldl (fun nr op => applyMean rows op nr) a)
        ((aops'.filter isMeanOp).foldl (fun nr op => applyMean rows op nr) b) :=
      rowEquiv_trans
        (foldl_congr_rowEquiv (fun op => applyMean_respects rows op) _ hab)
        (foldl_perm_rowEquiv (fun op => applyMean_respects rows op)
          (fun o1 o2 r => applyMean_comm rows o1 o2 r) hmp b)
    rw [← hcongr (aops'.filter isMeanOp) b] at h1
    exact h1

/-- **C3.**  `cleanDataset` runs in four fixed phases selected by operation
type, so the order of the `operations` array is irrelevant: permuting the
operation list yields the same cleaned rows, row by row, where two rows are
equal when they agree as mappings (`rowGet` at every column; JS property
insertion order, which the association-list embedding records, is quotiented
away). -/
theorem c3_operation_order_irrelevant (D : List Row) (cols : List String)
    (ops ops' : List CleaningOperation) (hperm : ops.Perm ops') :
    RowsEquiv (cleanDataset D cols ops) (cleanDataset D cols ops') := by
  have haperm : (activeOps ops).Perm (activeOps ops') := hperm.filter _
  rw [cleanDataset_eq', cleanDataset_eq']
  have h12 : dropEmptyIf (activeOps ops') cols (dedupeIf (activeOps ops') D)
      = dropEmptyIf (activeOps ops) cols (dedupeIf (activeOps ops) D) := by
    simp only [dedupeIf, dropEmptyIf, perm_any_eq haperm]
  rw [h12]
  exact phase4_perm_equiv haperm (phase3_perm_equiv haperm _)

/-- **C3, witness.** -/
theorem c3_operation_order_irrelevant_witness :
    RowsEquiv
      (cleanDataset [[("A", Value.null)]] ["A"]
        [⟨.fill_missing_zero, some "A", "Fill A with zero", true⟩,
          ⟨.convert_to_number, some "B", "Convert B to number", true⟩])
      (cleanDataset [[("A", Value.null)]] ["A"]
        [⟨.convert_to_number, some "B", "Convert B to number", true⟩,
          ⟨.fill_missing_zero, some "A", "Fill A with zero", true⟩]) :=
  c3_operation_order_irrelevant [[("A", Value.null)]] ["A"]
    [⟨.fill_missing_zero, some "A", "Fill A with zero", true⟩,
      ⟨.convert_to_number, some "B", "Convert B to number", true⟩]
    [⟨.convert_to_number, some "B", "Convert B to number", true⟩,
      ⟨.fill_missing_zero, some "A", "Fill A with zero", true⟩]
    (List.Perm.swap _ _ _)

end Dataline
